import Mathlib

/-!
Verification of the flow-analysis core of the mcp-whisker repository.

The embedding translates the relevant JavaScript/TypeScript functions into
Lean definitions:

* `dist/services/calico-whisker.js`: the flow-aggregation map and summary
  building inside `getNamespaceFlowSummary`, `analyzeBlockedFlows` and
  `retrievePolicyDetails`.
* `dist/services/log-filter.js`: `extractLabelValue` and
  `generateCalicoNetworkPolicies`.
* the MCP request handlers `handleGetNamespaceFlowSummary` and
  `handleGenerateNetworkPolicies` (validation-versus-fetch ordering).

JavaScript-specific behaviours are embedded explicitly: `Array.join`
renders `null` as the empty string, template literals render `null` as
"null", `String.prototype.split` on a one-character separator is
`List.splitOn` on the character list, JS string comparison is modelled by
Lean's lexicographic `String` order, and external processes (kubectl) are
modelled by an explicit outcome environment.
-/

namespace McpWhisker

/-! ## JavaScript string primitives -/

/-- JS `Array.prototype.join` element rendering for a possibly-`null`
numeric field: `null` becomes the empty string. -/
def joinOptInt : Option Int → String
  | none => ""
  | some n => toString n

/-- JS template-literal rendering for a possibly-`null` numeric field:
`null` becomes the string "null". -/
def templateOptInt : Option Int → String
  | none => "null"
  | some n => toString n

/-- JS truthiness of a possibly-absent string: `undefined`/`null` and the
empty string are falsy. -/
def strTruthy : Option String → Bool
  | none => false
  | some s => !(s == "")

/-- JS `String.prototype.split` with a one-character separator,
expressed on the character list of the string. -/
def jsSplit (sep : Char) (s : String) : List String :=
  (s.data.splitOn sep).map List.asString

/-- Leading-digit accumulation for `jsParseInt`. -/
def parseDigits : List Char → Nat → Option Nat
  | [], acc => some acc
  | c :: cs, acc =>
    if c.isDigit then parseDigits cs (acc * 10 + (c.toNat - '0'.toNat))
    else some acc

/-- JS `parseInt` (radix 10) on the strings reachable in this codebase:
an optional sign followed by decimal digits parses to the number, a
string with no leading digit is `NaN` (embedded as `none`). -/
def jsParseInt (s : String) : Option Int :=
  match s.data with
  | '-' :: c :: cs =>
    if c.isDigit then (parseDigits (c :: cs) 0).map (fun n => -(n : Int)) else none
  | c :: cs =>
    if c.isDigit then (parseDigits (c :: cs) 0).map (fun n => (n : Int)) else none
  | [] => none

/-- JS `String.prototype.trim`: strip whitespace from both ends
(expressed on the character list so that it evaluates structurally). -/
def jsTrim (s : String) : String :=
  ⟨(((s.data.dropWhile Char.isWhitespace).reverse).dropWhile Char.isWhitespace).reverse⟩

/-- JS `String.prototype.toUpperCase` on the ASCII range. -/
def jsToUpper (s : String) : String :=
  ⟨s.data.map Char.toUpper⟩

/-- JS `String.prototype.toLowerCase` on the ASCII range. -/
def jsToLower (s : String) : String :=
  ⟨s.data.map Char.toLower⟩

/-- JS `String.prototype.includes`: contiguous substring test. -/
def jsIncludes (s needle : String) : Bool :=
  go s.data
where
  go : List Char → Bool
  | [] => needle.data.isPrefixOf []
  | c :: cs => needle.data.isPrefixOf (c :: cs) || go cs

/-! ## Data model (raw whisker flow records) -/

/-- The `trigger` back-reference carried by a policy hit; the analyzer
reads its `name`, `namespace` and `kind` fields. -/
structure TriggerRef where
  kind : String
  name : String
  namespace_ : String
  deriving DecidableEq, Repr

/-- One entry of a `policies.enforced` / `policies.pending` list. -/
structure PolicyHit where
  kind : String
  name : String
  namespace_ : String
  tier : String
  action : String
  policy_index : Int
  rule_index : Int
  trigger : Option TriggerRef
  deriving DecidableEq, Repr

/-- The `policies` object of a raw flow record. -/
structure PolicyLists where
  enforced : List PolicyHit
  pending : List PolicyHit
  deriving DecidableEq, Repr

/-- A raw flow record as served by the whisker backend. -/
structure RawFlowRecord where
  source_name : String
  source_namespace : String
  source_labels : Option String
  dest_name : String
  dest_namespace : String
  dest_labels : Option String
  protocol : String
  dest_port : Option Int
  action : String
  reporter : String
  packets_in : Int
  packets_out : Int
  bytes_in : Int
  bytes_out : Int
  start_time : String
  end_time : String
  policies : Option PolicyLists
  deriving DecidableEq, Repr

/-- `log.policies?.enforced` with the optional chain collapsed. -/
def enforcedOf (log : RawFlowRecord) : List PolicyHit :=
  match log.policies with
  | some p => p.enforced
  | none => []

/-- `log.policies?.pending` with the optional chain collapsed. -/
def pendingOf (log : RawFlowRecord) : List PolicyHit :=
  match log.policies with
  | some p => p.pending
  | none => []

/-! ## Flow aggregation (`getNamespaceFlowSummary`, lines 155-253) -/

/-- The aggregated value stored in the `flowMap`. JS `Set` objects are
embedded as insertion-ordered duplicate-free lists. -/
structure Flow where
  source : String
  sourceNamespace : String
  destination : String
  destNamespace : String
  protocol : String
  port : Option Int
  sourceAction : String
  destAction : String
  packetsIn : Int
  packetsOut : Int
  bytesIn : Int
  bytesOut : Int
  startTime : String
  endTime : String
  sourcePolicies : List String
  destPolicies : List String
  enforcedPolicies : List PolicyHit
  deriving DecidableEq, Repr

/-- The `flowKey` string: the seven fields joined with `'|'`
(`Array.join` renders a `null` port as the empty string). -/
def flowKey (log : RawFlowRecord) : String :=
  log.source_name ++ "|" ++ log.source_namespace ++ "|" ++ log.dest_name ++ "|" ++
    log.dest_namespace ++ "|" ++ log.protocol ++ "|" ++ joinOptInt log.dest_port ++ "|" ++
    log.action

/-- `` `${policy.name} (${policy.namespace})` ``. -/
def policyLabel (p : PolicyHit) : String :=
  p.name ++ " (" ++ p.namespace_ ++ ")"

/-- JS `Set.prototype.add`: append if not already present. -/
def setAdd (s : List String) (x : String) : List String :=
  if x ∈ s then s else s ++ [x]

/-- Add every enforced policy's label of `log` to the side set selected by
`log.reporter` (the body of the `forEach` over `log.policies.enforced`). -/
def addSidePolicies (log : RawFlowRecord) (src dst : List String) :
    List String × List String :=
  if log.reporter = "Src" then
    ((enforcedOf log).foldl (fun s p => setAdd s (policyLabel p)) src, dst)
  else if log.reporter = "Dst" then
    (src, (enforcedOf log).foldl (fun s p => setAdd s (policyLabel p)) dst)
  else (src, dst)

/-- Reporter-side action update on an existing flow (lines 195-213):
a differing same-side action is concatenated with `'+'`. -/
def updateAction (existing incoming : String) : String :=
  if existing ≠ "N/A" ∧ existing ≠ incoming then existing ++ "+" ++ incoming
  else incoming

/-- The "aggregate existing flow" branch (lines 168-214). -/
def mergeFlow (existing : Flow) (log : RawFlowRecord) : Flow :=
  let sides := addSidePolicies log existing.sourcePolicies existing.destPolicies
  { existing with
    packetsIn := existing.packetsIn + log.packets_in
    packetsOut := existing.packetsOut + log.packets_out
    bytesIn := existing.bytesIn + log.bytes_in
    bytesOut := existing.bytesOut + log.bytes_out
    startTime := if log.start_time < existing.startTime then log.start_time
      else existing.startTime
    endTime := if log.end_time > existing.endTime then log.end_time
      else existing.endTime
    enforcedPolicies := existing.enforcedPolicies ++ enforcedOf log
    sourcePolicies := sides.1
    destPolicies := sides.2
    sourceAction := if log.reporter = "Src" then updateAction existing.sourceAction log.action
      else existing.sourceAction
    destAction := if log.reporter = "Dst" then updateAction existing.destAction log.action
      else existing.destAction }

/-- The "create new flow entry" branch (lines 215-252). -/
def newFlow (log : RawFlowRecord) : Flow :=
  let sides := addSidePolicies log [] []
  { source := log.source_name
    sourceNamespace := log.source_namespace
    destination := log.dest_name
    destNamespace := log.dest_namespace
    protocol := log.protocol
    port := log.dest_port
    sourceAction := if log.reporter = "Src" then log.action else "N/A"
    destAction := if log.reporter = "Dst" then log.action else "N/A"
    packetsIn := log.packets_in
    packetsOut := log.packets_out
    bytesIn := log.bytes_in
    bytesOut := log.bytes_out
    startTime := log.start_time
    endTime := log.end_time
    sourcePolicies := sides.1
    destPolicies := sides.2
    enforcedPolicies := enforcedOf log }

/-- JS `Map.get`/`Map.has`: first entry with the given key. -/
def findFlow : List (String × Flow) → String → Option Flow
  | [], _ => none
  | (k, f) :: m, key => if k = key then some f else findFlow m key

/-- JS `Map.set` on a key that is already present: replace in place. -/
def setFlow : List (String × Flow) → String → Flow → List (String × Flow)
  | [], _, _ => []
  | (k, f) :: m, key, v =>
    if k = key then (k, v) :: m else (k, f) :: setFlow m key v

/-- One iteration of the `namespaceLogs.forEach` aggregation loop. -/
def aggStep (m : List (String × Flow)) (log : RawFlowRecord) : List (String × Flow) :=
  match findFlow m (flowKey log) with
  | some existing => setFlow m (flowKey log) (mergeFlow existing log)
  | none => m ++ [(flowKey log, newFlow log)]

/-- The whole `flowMap` construction: fold the aggregation step over the
input records, starting from the empty insertion-ordered map. -/
def aggregate (logs : List RawFlowRecord) : List (String × Flow) :=
  logs.foldl aggStep []

/-! ## Basic facts about the aggregation map -/

theorem findFlow_append (m₁ m₂ : List (String × Flow)) (k : String) :
    findFlow (m₁ ++ m₂) k = ((findFlow m₁ k).map some).getD (findFlow m₂ k) := by
  induction m₁ with
  | nil => simp [findFlow]
  | cons e m ih =>
    obtain ⟨k', f⟩ := e
    by_cases h : k' = k <;> simp [findFlow, h, ih]

theorem findFlow_setFlow_self (m : List (String × Flow)) (k : String) (v : Flow) :
    findFlow (setFlow m k v) k = ((findFlow m k).map (fun _ => v)) := by
  induction m with
  | nil => simp [findFlow, setFlow]
  | cons e m ih =>
    obtain ⟨k', f⟩ := e
    by_cases h : k' = k <;> simp [findFlow, setFlow, h, ih]

theorem findFlow_setFlow_other (m : List (String × Flow)) (k k' : String) (v : Flow)
    (h : k' ≠ k) : findFlow (setFlow m k v) k' = findFlow m k' := by
  induction m with
  | nil => simp [setFlow]
  | cons e m ih =>
    obtain ⟨k₀, f⟩ := e
    by_cases h₀ : k₀ = k
    · subst h₀
      simp [setFlow, findFlow, Ne.symm h]
    · simp only [setFlow, if_neg h₀]
      by_cases h₁ : k₀ = k' <;> simp [findFlow, h₁, ih]

/-- Processing one more record changes only the bucket of its own key. -/
theorem findFlow_aggStep_other (m : List (String × Flow)) (log : RawFlowRecord)
    (k : String) (h : flowKey log ≠ k) : findFlow (aggStep m log) k = findFlow m k := by
  unfold aggStep
  cases hfind : findFlow m (flowKey log) with
  | none =>
    cases h₂ : findFlow m k <;> simp [findFlow_append, findFlow, h, h₂]
  | some f => simp [findFlow_setFlow_other _ _ _ _ (Ne.symm h)]

theorem findFlow_aggStep_self (m : List (String × Flow)) (log : RawFlowRecord) :
    findFlow (aggStep m log) (flowKey log) =
      some (match findFlow m (flowKey log) with
            | some f => mergeFlow f log
            | none => newFlow log) := by
  unfold aggStep
  cases hfind : findFlow m (flowKey log) with
  | none => simp [findFlow_append, hfind, findFlow]
  | some f => simp [findFlow_setFlow_self, hfind]

/-! ## Claim C2: Allow and Deny records never merge -/

/-- The last character of a string, if any. -/
def lastChar (s : String) : Option Char :=
  s.data.reverse.head?

theorem lastChar_append (p s : String) (c : Char) (h : lastChar s = some c) :
    lastChar (p ++ s) = some c := by
  unfold lastChar at *
  rw [String.data_append, List.reverse_append]
  cases hd : s.data.reverse with
  | nil => simp [hd] at h
  | cons x xs => simp [hd] at h ⊢; exact h

theorem append_ne_of_lastChar_ne (p₁ p₂ s₁ s₂ : String) (c₁ c₂ : Char)
    (h₁ : lastChar s₁ = some c₁) (h₂ : lastChar s₂ = some c₂) (hne : c₁ ≠ c₂) :
    p₁ ++ s₁ ≠ p₂ ++ s₂ := by
  intro h
  have e₁ := lastChar_append p₁ s₁ c₁ h₁
  have e₂ := lastChar_append p₂ s₂ c₂ h₂
  rw [h, e₂] at e₁
  simp only [Option.some.injEq] at e₁
  exact hne e₁.symm

/-- The flow key splits as a prefix followed by the record's action. -/
def keyPrefix (log : RawFlowRecord) : String :=
  log.source_name ++ "|" ++ log.source_namespace ++ "|" ++ log.dest_name ++ "|" ++
    log.dest_namespace ++ "|" ++ log.protocol ++ "|" ++ joinOptInt log.dest_port ++ "|"

theorem flowKey_eq_prefix_action (log : RawFlowRecord) :
    flowKey log = keyPrefix log ++ log.action := rfl

/-- Records with action `Allow` and `Deny` always receive different keys. -/
theorem flowKey_ne_of_allow_deny (r₁ r₂ : RawFlowRecord)
    (h₁ : r₁.action = "Allow") (h₂ : r₂.action = "Deny") :
    flowKey r₁ ≠ flowKey r₂ := by
  rw [flowKey_eq_prefix_action, flowKey_eq_prefix_action, h₁, h₂]
  exact append_ne_of_lastChar_ne _ _ _ _ 'w' 'y' (by decide) (by decide) (by decide)

/-- C2: aggregating two records that agree on source name, source
namespace, dest name, dest namespace, protocol and dest port, one with
action `Allow` and one with action `Deny`, never merges them: the flow
map has exactly the two distinct keys, hence exactly 2 Flow entities. -/
theorem allow_deny_never_merge (r₁ r₂ : RawFlowRecord)
    (hsn : r₁.source_name = r₂.source_name)
    (hsns : r₁.source_namespace = r₂.source_namespace)
    (hdn : r₁.dest_name = r₂.dest_name)
    (hdns : r₁.dest_namespace = r₂.dest_namespace)
    (hp : r₁.protocol = r₂.protocol)
    (hport : r₁.dest_port = r₂.dest_port)
    (ha₁ : r₁.action = "Allow") (ha₂ : r₂.action = "Deny") :
    (aggregate [r₁, r₂]).map Prod.fst = [flowKey r₁, flowKey r₂] ∧
      flowKey r₁ ≠ flowKey r₂ := by
  have hne := flowKey_ne_of_allow_deny r₁ r₂ ha₁ ha₂
  refine ⟨?_, hne⟩
  show (aggStep (aggStep [] r₁) r₂).map Prod.fst = _
  simp [aggStep, findFlow, Ne.symm hne, hne]

/-- Witness for C2 on concrete records. -/
def sampleAllow : RawFlowRecord :=
  { source_name := "web", source_namespace := "default", source_labels := some "app=web"
    dest_name := "db", dest_namespace := "data", dest_labels := some "app=db"
    protocol := "tcp", dest_port := some 5432, action := "Allow", reporter := "Src"
    packets_in := 10, packets_out := 5, bytes_in := 100, bytes_out := 50
    start_time := "2024-01-01T00:00:00Z", end_time := "2024-01-01T00:01:00Z"
    policies := some { enforced := [], pending := [] } }

def sampleDeny : RawFlowRecord :=
  { sampleAllow with action := "Deny", reporter := "Dst" }

theorem allow_deny_never_merge_witness :
    (aggregate [sampleAllow, sampleDeny]).map Prod.fst =
        [flowKey sampleAllow, flowKey sampleDeny] ∧
      flowKey sampleAllow ≠ flowKey sampleDeny :=
  allow_deny_never_merge sampleAllow sampleDeny rfl rfl rfl rfl rfl rfl rfl rfl

/-! ## Per-key characterization of the aggregation fold -/

/-- Records whose action is one of the two documented values. -/
def actionOk (r : RawFlowRecord) : Prop :=
  r.action = "Allow" ∨ r.action = "Deny"

/-- Two records with equal flow keys and documented actions have equal
actions: the key ends with the action, and "Allow" and "Deny" end in
different characters. -/
theorem action_eq_of_flowKey_eq (r r' : RawFlowRecord) (h : flowKey r = flowKey r')
    (h₁ : actionOk r) (h₂ : actionOk r') : r.action = r'.action := by
  rw [flowKey_eq_prefix_action, flowKey_eq_prefix_action] at h
  rcases h₁ with ha | ha <;> rcases h₂ with hb | hb <;> rw [ha, hb] at h ⊢
  · exact absurd h (append_ne_of_lastChar_ne _ _ _ _ 'w' 'y' (by decide) (by decide)
      (by decide))
  · exact absurd h (append_ne_of_lastChar_ne _ _ _ _ 'y' 'w' (by decide) (by decide)
      (by decide))

/-- Folding one record into an optional bucket: absent buckets are
initialized, present buckets are merged. -/
def mergeStep (acc : Option Flow) (r : RawFlowRecord) : Option Flow :=
  some (match acc with
        | none => newFlow r
        | some f => mergeFlow f r)

/-- Fold a whole key group into an optional bucket. -/
def processGroup (acc : Option Flow) (g : List RawFlowRecord) : Option Flow :=
  g.foldl mergeStep acc

theorem processGroup_some (f : Flow) (g : List RawFlowRecord) :
    processGroup (some f) g = some (g.foldl mergeFlow f) := by
  induction g generalizing f with
  | nil => rfl
  | cons r rs ih => simpa [processGroup, mergeStep] using ih (mergeFlow f r)

/-- The bucket of key `k` after aggregating is exactly the fold of the
subsequence of records whose flow key is `k`. -/
theorem findFlow_foldl_aggStep (logs : List RawFlowRecord) (m : List (String × Flow))
    (k : String) :
    findFlow (logs.foldl aggStep m) k =
      processGroup (findFlow m k) (logs.filter (fun r => flowKey r == k)) := by
  induction logs generalizing m with
  | nil => rfl
  | cons log rest ih =>
    rw [List.foldl_cons, ih]
    by_cases h : flowKey log = k
    · subst h
      rw [findFlow_aggStep_self]
      simp only [List.filter_cons, beq_self_eq_true, if_pos]
      cases hfind : findFlow m (flowKey log) <;>
        simp [processGroup, mergeStep, hfind]
    · rw [findFlow_aggStep_other m log k h]
      simp [List.filter_cons, h]

theorem findFlow_aggregate (logs : List RawFlowRecord) (k : String) :
    findFlow (aggregate logs) k =
      processGroup none (logs.filter (fun r => flowKey r == k)) :=
  findFlow_foldl_aggStep logs [] k

/-! Component lemmas for `List.foldl mergeFlow`. -/

theorem foldl_mergeFlow_packetsIn (gs : List RawFlowRecord) (f : Flow) :
    (gs.foldl mergeFlow f).packetsIn = f.packetsIn + (gs.map (·.packets_in)).sum := by
  induction gs generalizing f with
  | nil => simp
  | cons r rs ih => simp [ih, mergeFlow]; ring

theorem foldl_mergeFlow_packetsOut (gs : List RawFlowRecord) (f : Flow) :
    (gs.foldl mergeFlow f).packetsOut = f.packetsOut + (gs.map (·.packets_out)).sum := by
  induction gs generalizing f with
  | nil => simp
  | cons r rs ih => simp [ih, mergeFlow]; ring

theorem foldl_mergeFlow_bytesIn (gs : List RawFlowRecord) (f : Flow) :
    (gs.foldl mergeFlow f).bytesIn = f.bytesIn + (gs.map (·.bytes_in)).sum := by
  induction gs generalizing f with
  | nil => simp
  | cons r rs ih => simp [ih, mergeFlow]; ring

theorem foldl_mergeFlow_bytesOut (gs : List RawFlowRecord) (f : Flow) :
    (gs.foldl mergeFlow f).bytesOut = f.bytesOut + (gs.map (·.bytes_out)).sum := by
  induction gs generalizing f with
  | nil => simp
  | cons r rs ih => simp [ih, mergeFlow]; ring

/-- The `if (a < b)` update used for the start of the time window. -/
def minFold (a : String) (l : List String) : String :=
  l.foldl (fun acc x => if x < acc then x else acc) a

/-- The `if (a > b)` update used for the end of the time window. -/
def maxFold (a : String) (l : List String) : String :=
  l.foldl (fun acc x => if x > acc then x else acc) a

theorem foldl_mergeFlow_startTime (gs : List RawFlowRecord) (f : Flow) :
    (gs.foldl mergeFlow f).startTime = minFold f.startTime (gs.map (·.start_time)) := by
  induction gs generalizing f with
  | nil => rfl
  | cons r rs ih => simp [ih, mergeFlow, minFold]

theorem foldl_mergeFlow_endTime (gs : List RawFlowRecord) (f : Flow) :
    (gs.foldl mergeFlow f).endTime = maxFold f.endTime (gs.map (·.end_time)) := by
  induction gs generalizing f with
  | nil => rfl
  | cons r rs ih => simp [ih, mergeFlow, maxFold]

theorem minFold_cons (a x : String) (xs : List String) :
    minFold a (x :: xs) = minFold (if x < a then x else a) xs := rfl

theorem maxFold_cons (a x : String) (xs : List String) :
    maxFold a (x :: xs) = maxFold (if x > a then x else a) xs := rfl

theorem minFold_mem (a : String) (l : List String) : minFold a l ∈ a :: l := by
  induction l generalizing a with
  | nil => simp [minFold]
  | cons x xs ih =>
    rw [minFold_cons]
    by_cases hx : x < a
    · rw [if_pos hx]
      exact List.mem_cons_of_mem a (ih x)
    · rw [if_neg hx]
      rcases List.mem_cons.mp (ih a) with h | h
      · rw [h]; exact List.mem_cons_self _ _
      · exact List.mem_cons_of_mem a (List.mem_cons_of_mem x h)

theorem minFold_le (a : String) (l : List String) :
    ∀ y ∈ a :: l, minFold a l ≤ y := by
  induction l generalizing a with
  | nil =>
    intro y hy
    simp only [List.mem_singleton] at hy
    subst hy
    exact le_refl _
  | cons x xs ih =>
    intro y hy
    rw [minFold_cons]
    have hmin : (if x < a then x else a) ≤ a ∧ (if x < a then x else a) ≤ x := by
      by_cases hx : x < a
      · rw [if_pos hx]; exact ⟨le_of_lt hx, le_refl x⟩
      · rw [if_neg hx]; exact ⟨le_refl a, not_lt.mp hx⟩
    have hself : minFold (if x < a then x else a) xs ≤ (if x < a then x else a) :=
      ih _ _ (List.mem_cons_self _ _)
    rcases List.mem_cons.mp hy with rfl | hy'
    · exact le_trans hself hmin.1
    · rcases List.mem_cons.mp hy' with rfl | hy''
      · exact le_trans hself hmin.2
      · exact ih _ y (List.mem_cons_of_mem _ hy'')

theorem maxFold_mem (a : String) (l : List String) : maxFold a l ∈ a :: l := by
  induction l generalizing a with
  | nil => simp [maxFold]
  | cons x xs ih =>
    rw [maxFold_cons]
    by_cases hx : x > a
    · rw [if_pos hx]
      exact List.mem_cons_of_mem a (ih x)
    · rw [if_neg hx]
      rcases List.mem_cons.mp (ih a) with h | h
      · rw [h]; exact List.mem_cons_self _ _
      · exact List.mem_cons_of_mem a (List.mem_cons_of_mem x h)

theorem maxFold_ge (a : String) (l : List String) :
    ∀ y ∈ a :: l, y ≤ maxFold a l := by
  induction l generalizing a with
  | nil =>
    intro y hy
    simp only [List.mem_singleton] at hy
    subst hy
    exact le_refl _
  | cons x xs ih =>
    intro y hy
    rw [maxFold_cons]
    have hmax : a ≤ (if x > a then x else a) ∧ x ≤ (if x > a then x else a) := by
      by_cases hx : x > a
      · rw [if_pos hx]; exact ⟨le_of_lt hx, le_refl x⟩
      · rw [if_neg hx]; exact ⟨le_refl a, not_lt.mp hx⟩
    have hself : (if x > a then x else a) ≤ maxFold (if x > a then x else a) xs :=
      ih _ _ (List.mem_cons_self _ _)
    rcases List.mem_cons.mp hy with rfl | hy'
    · exact le_trans hmax.1 hself
    · rcases List.mem_cons.mp hy' with rfl | hy''
      · exact le_trans hmax.2 hself
      · exact ih _ y (List.mem_cons_of_mem _ hy'')

/-- With an invariant side action, the concatenation branch of
`updateAction` is dead and the update returns the incoming action. -/
theorem updateAction_of_inv (existing a : String)
    (h : existing = "N/A" ∨ existing = a) : updateAction existing a = a := by
  unfold updateAction
  rcases h with h | h <;> subst h <;> simp

theorem foldl_mergeFlow_sourceAction (gs : List RawFlowRecord) (f : Flow) (a : String)
    (ha : ∀ r ∈ gs, r.action = a) (hf : f.sourceAction = "N/A" ∨ f.sourceAction = a) :
    (gs.foldl mergeFlow f).sourceAction =
      if f.sourceAction = a ∨ ∃ r ∈ gs, r.reporter = "Src" then a else "N/A" := by
  induction gs generalizing f with
  | nil =>
    rcases hf with h | h <;> simp [h]
    by_cases hna : "N/A" = a <;> simp [hna]
  | cons r rs ih =>
    have har : r.action = a := ha r (List.mem_cons_self _ _)
    have hstep : (mergeFlow f r).sourceAction =
        if r.reporter = "Src" then updateAction f.sourceAction r.action
        else f.sourceAction := rfl
    by_cases hrep : r.reporter = "Src"
    · have hupd : (mergeFlow f r).sourceAction = a := by
        rw [hstep, if_pos hrep, har, updateAction_of_inv _ _ hf]
      rw [List.foldl_cons,
        ih (mergeFlow f r) (fun x hx => ha x (List.mem_cons_of_mem _ hx)) (Or.inr hupd),
        hupd, if_pos (Or.inl rfl),
        if_pos (Or.inr ⟨r, List.mem_cons_self _ _, hrep⟩)]
    · have hupd : (mergeFlow f r).sourceAction = f.sourceAction := by
        rw [hstep, if_neg hrep]
      rw [List.foldl_cons,
        ih (mergeFlow f r) (fun x hx => ha x (List.mem_cons_of_mem _ hx)) (hupd ▸ hf)]
      rw [hupd]
      congr 1
      simp only [eq_iff_iff]
      constructor
      · rintro (h | ⟨x, hx, hsrc⟩)
        · exact Or.inl h
        · exact Or.inr ⟨x, List.mem_cons_of_mem _ hx, hsrc⟩
      · rintro (h | ⟨x, hx, hsrc⟩)
        · exact Or.inl h
        · rcases List.mem_cons.mp hx with rfl | hx'
          · exact absurd hsrc hrep
          · exact Or.inr ⟨x, hx', hsrc⟩

theorem foldl_mergeFlow_destAction (gs : List RawFlowRecord) (f : Flow) (a : String)
    (ha : ∀ r ∈ gs, r.action = a) (hf : f.destAction = "N/A" ∨ f.destAction = a) :
    (gs.foldl mergeFlow f).destAction =
      if f.destAction = a ∨ ∃ r ∈ gs, r.reporter = "Dst" then a else "N/A" := by
  induction gs generalizing f with
  | nil =>
    rcases hf with h | h <;> simp [h]
    by_cases hna : "N/A" = a <;> simp [hna]
  | cons r rs ih =>
    have har : r.action = a := ha r (List.mem_cons_self _ _)
    have hstep : (mergeFlow f r).destAction =
        if r.reporter = "Dst" then updateAction f.destAction r.action
        else f.destAction := rfl
    by_cases hrep : r.reporter = "Dst"
    · have hupd : (mergeFlow f r).destAction = a := by
        rw [hstep, if_pos hrep, har, updateAction_of_inv _ _ hf]
      rw [List.foldl_cons,
        ih (mergeFlow f r) (fun x hx => ha x (List.mem_cons_of_mem _ hx)) (Or.inr hupd),
        hupd, if_pos (Or.inl rfl),
        if_pos (Or.inr ⟨r, List.mem_cons_self _ _, hrep⟩)]
    · have hupd : (mergeFlow f r).destAction = f.destAction := by
        rw [hstep, if_neg hrep]
      rw [List.foldl_cons,
        ih (mergeFlow f r) (fun x hx => ha x (List.mem_cons_of_mem _ hx)) (hupd ▸ hf)]
      rw [hupd]
      congr 1
      simp only [eq_iff_iff]
      constructor
      · rintro (h | ⟨x, hx, hsrc⟩)
        · exact Or.inl h
        · exact Or.inr ⟨x, List.mem_cons_of_mem _ hx, hsrc⟩
      · rintro (h | ⟨x, hx, hsrc⟩)
        · exact Or.inl h
        · rcases List.mem_cons.mp hx with rfl | hx'
          · exact absurd hsrc hrep
          · exact Or.inr ⟨x, hx', hsrc⟩

theorem setAdd_mem (s : List String) (y x : String) :
    x ∈ setAdd s y ↔ x ∈ s ∨ x = y := by
  unfold setAdd
  by_cases h : y ∈ s
  · rw [if_pos h]
    constructor
    · exact Or.inl
    · rintro (hx | rfl)
      · exact hx
      · exact h
  · rw [if_neg h]
    simp [List.mem_append]

theorem foldl_setAdd_mem (ps : List PolicyHit) (s : List String) (x : String) :
    x ∈ ps.foldl (fun acc p => setAdd acc (policyLabel p)) s ↔
      x ∈ s ∨ x ∈ ps.map policyLabel := by
  induction ps generalizing s with
  | nil => simp
  | cons p ps ih =>
    rw [List.foldl_cons, ih, setAdd_mem]
    simp only [List.map_cons, List.mem_cons]
    tauto

theorem mergeFlow_sourcePolicies_mem (f : Flow) (r : RawFlowRecord) (x : String) :
    x ∈ (mergeFlow f r).sourcePolicies ↔
      x ∈ f.sourcePolicies ∨
        (r.reporter = "Src" ∧ x ∈ (enforcedOf r).map policyLabel) := by
  show x ∈ (addSidePolicies r f.sourcePolicies f.destPolicies).1 ↔ _
  unfold addSidePolicies
  by_cases h₁ : r.reporter = "Src"
  · rw [if_pos h₁]
    rw [show ((enforcedOf r).foldl (fun s p => setAdd s (policyLabel p)) f.sourcePolicies,
          f.destPolicies).1 =
        (enforcedOf r).foldl (fun s p => setAdd s (policyLabel p)) f.sourcePolicies from rfl]
    rw [foldl_setAdd_mem]
    simp [h₁]
  · rw [if_neg h₁]
    by_cases h₂ : r.reporter = "Dst" <;> simp [h₁, h₂]

theorem mergeFlow_destPolicies_mem (f : Flow) (r : RawFlowRecord) (x : String) :
    x ∈ (mergeFlow f r).destPolicies ↔
      x ∈ f.destPolicies ∨
        (r.reporter = "Dst" ∧ x ∈ (enforcedOf r).map policyLabel) := by
  show x ∈ (addSidePolicies r f.sourcePolicies f.destPolicies).2 ↔ _
  unfold addSidePolicies
  by_cases h₁ : r.reporter = "Src"
  · have hne : r.reporter ≠ "Dst" := by rw [h₁]; decide
    rw [if_pos h₁]
    simp [hne]
  · rw [if_neg h₁]
    by_cases h₂ : r.reporter = "Dst"
    · rw [if_pos h₂]
      rw [show (f.sourcePolicies,
            (enforcedOf r).foldl (fun s p => setAdd s (policyLabel p)) f.destPolicies).2 =
          (enforcedOf r).foldl (fun s p => setAdd s (policyLabel p)) f.destPolicies from rfl]
      rw [foldl_setAdd_mem]
      simp [h₂]
    · rw [if_neg h₂]
      simp [h₂]

theorem foldl_mergeFlow_sourcePolicies (gs : List RawFlowRecord) (f : Flow) (x : String) :
    x ∈ (gs.foldl mergeFlow f).sourcePolicies ↔
      x ∈ f.sourcePolicies ∨
        ∃ r ∈ gs, r.reporter = "Src" ∧ x ∈ (enforcedOf r).map policyLabel := by
  induction gs generalizing f with
  | nil => simp
  | cons r rs ih =>
    rw [List.foldl_cons, ih (mergeFlow f r), mergeFlow_sourcePolicies_mem]
    constructor
    · rintro ((hf | hr) | ⟨z, hz, hp⟩)
      · exact Or.inl hf
      · exact Or.inr ⟨r, List.mem_cons_self _ _, hr⟩
      · exact Or.inr ⟨z, List.mem_cons_of_mem _ hz, hp⟩
    · rintro (hf | ⟨z, hz, hp⟩)
      · exact Or.inl (Or.inl hf)
      · rcases List.mem_cons.mp hz with rfl | hz'
        · exact Or.inl (Or.inr hp)
        · exact Or.inr ⟨z, hz', hp⟩

theorem foldl_mergeFlow_destPolicies (gs : List RawFlowRecord) (f : Flow) (x : String) :
    x ∈ (gs.foldl mergeFlow f).destPolicies ↔
      x ∈ f.destPolicies ∨
        ∃ r ∈ gs, r.reporter = "Dst" ∧ x ∈ (enforcedOf r).map policyLabel := by
  induction gs generalizing f with
  | nil => simp
  | cons r rs ih =>
    rw [List.foldl_cons, ih (mergeFlow f r), mergeFlow_destPolicies_mem]
    constructor
    · rintro ((hf | hr) | ⟨z, hz, hp⟩)
      · exact Or.inl hf
      · exact Or.inr ⟨r, List.mem_cons_self _ _, hr⟩
      · exact Or.inr ⟨z, List.mem_cons_of_mem _ hz, hp⟩
    · rintro (hf | ⟨z, hz, hp⟩)
      · exact Or.inl (Or.inl hf)
      · rcases List.mem_cons.mp hz with rfl | hz'
        · exact Or.inl (Or.inr hp)
        · exact Or.inr ⟨z, hz', hp⟩

theorem foldl_mergeFlow_enforced (gs : List RawFlowRecord) (f : Flow) :
    (gs.foldl mergeFlow f).enforcedPolicies =
      f.enforcedPolicies ++ (gs.map enforcedOf).flatten := by
  induction gs generalizing f with
  | nil => simp
  | cons r rs ih =>
    rw [List.foldl_cons, ih (mergeFlow f r)]
    show (f.enforcedPolicies ++ enforcedOf r) ++ _ = _
    simp

theorem flatten_perm_of_perm {α : Type} {l₁ l₂ : List (List α)} (h : l₁.Perm l₂) :
    l₁.flatten.Perm l₂.flatten := by
  induction h with
  | nil => rfl
  | cons x _ ih =>
    simp only [List.flatten_cons]
    exact ih.append_left x
  | swap x y l =>
    simp only [List.flatten_cons]
    rw [← List.append_assoc, ← List.append_assoc]
    exact List.perm_append_comm.append_right l.flatten
  | trans _ _ ih₁ ih₂ => exact ih₁.trans ih₂

/-! ## Whole-group characterizations -/

theorem group_packetsIn (g₀ : RawFlowRecord) (gs : List RawFlowRecord) :
    (gs.foldl mergeFlow (newFlow g₀)).packetsIn =
      ((g₀ :: gs).map (·.packets_in)).sum := by
  rw [foldl_mergeFlow_packetsIn]
  simp [newFlow]

theorem group_packetsOut (g₀ : RawFlowRecord) (gs : List RawFlowRecord) :
    (gs.foldl mergeFlow (newFlow g₀)).packetsOut =
      ((g₀ :: gs).map (·.packets_out)).sum := by
  rw [foldl_mergeFlow_packetsOut]
  simp [newFlow]

theorem group_bytesIn (g₀ : RawFlowRecord) (gs : List RawFlowRecord) :
    (gs.foldl mergeFlow (newFlow g₀)).bytesIn =
      ((g₀ :: gs).map (·.bytes_in)).sum := by
  rw [foldl_mergeFlow_bytesIn]
  simp [newFlow]

theorem group_bytesOut (g₀ : RawFlowRecord) (gs : List RawFlowRecord) :
    (gs.foldl mergeFlow (newFlow g₀)).bytesOut =
      ((g₀ :: gs).map (·.bytes_out)).sum := by
  rw [foldl_mergeFlow_bytesOut]
  simp [newFlow]

theorem group_startTime (g₀ : RawFlowRecord) (gs : List RawFlowRecord) :
    (gs.foldl mergeFlow (newFlow g₀)).startTime =
      minFold g₀.start_time (gs.map (·.start_time)) := by
  rw [foldl_mergeFlow_startTime]
  rfl

theorem group_endTime (g₀ : RawFlowRecord) (gs : List RawFlowRecord) :
    (gs.foldl mergeFlow (newFlow g₀)).endTime =
      maxFold g₀.end_time (gs.map (·.end_time)) := by
  rw [foldl_mergeFlow_endTime]
  rfl

theorem group_sourceAction (g₀ : RawFlowRecord) (gs : List RawFlowRecord) (a : String)
    (hall : ∀ r ∈ g₀ :: gs, r.action = a) (hna : a ≠ "N/A") :
    (gs.foldl mergeFlow (newFlow g₀)).sourceAction =
      if ∃ r ∈ g₀ :: gs, r.reporter = "Src" then a else "N/A" := by
  have h₀ : g₀.action = a := hall g₀ (List.mem_cons_self _ _)
  have hnew : (newFlow g₀).sourceAction =
      if g₀.reporter = "Src" then g₀.action else "N/A" := rfl
  have hinv : (newFlow g₀).sourceAction = "N/A" ∨ (newFlow g₀).sourceAction = a := by
    rw [hnew]
    by_cases h : g₀.reporter = "Src"
    · rw [if_pos h, h₀]; exact Or.inr rfl
    · rw [if_neg h]; exact Or.inl rfl
  rw [foldl_mergeFlow_sourceAction gs (newFlow g₀) a
    (fun r hr => hall r (List.mem_cons_of_mem _ hr)) hinv]
  by_cases h : g₀.reporter = "Src"
  · have hl : (newFlow g₀).sourceAction = a := by rw [hnew, if_pos h, h₀]
    rw [if_pos (Or.inl hl), if_pos ⟨g₀, List.mem_cons_self _ _, h⟩]
  · have hl : (newFlow g₀).sourceAction = "N/A" := by rw [hnew, if_neg h]
    by_cases hex : ∃ r ∈ gs, r.reporter = "Src"
    · obtain ⟨r, hr, hsrc⟩ := hex
      rw [if_pos (Or.inr ⟨r, hr, hsrc⟩),
        if_pos ⟨r, List.mem_cons_of_mem _ hr, hsrc⟩]
    · have hcond : ¬((newFlow g₀).sourceAction = a ∨ ∃ r ∈ gs, r.reporter = "Src") := by
        rintro (hc | hc)
        · exact hna (hl ▸ hc.symm)
        · exact hex hc
      have hcond' : ¬∃ r ∈ g₀ :: gs, r.reporter = "Src" := by
        rintro ⟨r, hr, hsrc⟩
        rcases List.mem_cons.mp hr with rfl | hr'
        · exact h hsrc
        · exact hex ⟨r, hr', hsrc⟩
      rw [if_neg hcond, if_neg hcond']

theorem group_destAction (g₀ : RawFlowRecord) (gs : List RawFlowRecord) (a : String)
    (hall : ∀ r ∈ g₀ :: gs, r.action = a) (hna : a ≠ "N/A") :
    (gs.foldl mergeFlow (newFlow g₀)).destAction =
      if ∃ r ∈ g₀ :: gs, r.reporter = "Dst" then a else "N/A" := by
  have h₀ : g₀.action = a := hall g₀ (List.mem_cons_self _ _)
  have hnew : (newFlow g₀).destAction =
      if g₀.reporter = "Dst" then g₀.action else "N/A" := rfl
  have hinv : (newFlow g₀).destAction = "N/A" ∨ (newFlow g₀).destAction = a := by
    rw [hnew]
    by_cases h : g₀.reporter = "Dst"
    · rw [if_pos h, h₀]; exact Or.inr rfl
    · rw [if_neg h]; exact Or.inl rfl
  rw [foldl_mergeFlow_destAction gs (newFlow g₀) a
    (fun r hr => hall r (List.mem_cons_of_mem _ hr)) hinv]
  by_cases h : g₀.reporter = "Dst"
  · have hl : (newFlow g₀).destAction = a := by rw [hnew, if_pos h, h₀]
    rw [if_pos (Or.inl hl), if_pos ⟨g₀, List.mem_cons_self _ _, h⟩]
  · have hl : (newFlow g₀).destAction = "N/A" := by rw [hnew, if_neg h]
    by_cases hex : ∃ r ∈ gs, r.reporter = "Dst"
    · obtain ⟨r, hr, hsrc⟩ := hex
      rw [if_pos (Or.inr ⟨r, hr, hsrc⟩),
        if_pos ⟨r, List.mem_cons_of_mem _ hr, hsrc⟩]
    · have hcond : ¬((newFlow g₀).destAction = a ∨ ∃ r ∈ gs, r.reporter = "Dst") := by
        rintro (hc | hc)
        · exact hna (hl ▸ hc.symm)
        · exact hex hc
      have hcond' : ¬∃ r ∈ g₀ :: gs, r.reporter = "Dst" := by
        rintro ⟨r, hr, hsrc⟩
        rcases List.mem_cons.mp hr with rfl | hr'
        · exact h hsrc
        · exact hex ⟨r, hr', hsrc⟩
      rw [if_neg hcond, if_neg hcond']

theorem group_sourcePolicies (g₀ : RawFlowRecord) (gs : List RawFlowRecord) (x : String) :
    x ∈ (gs.foldl mergeFlow (newFlow g₀)).sourcePolicies ↔
      ∃ r ∈ g₀ :: gs, r.reporter = "Src" ∧ x ∈ (enforcedOf r).map policyLabel := by
  rw [foldl_mergeFlow_sourcePolicies]
  have hnew : x ∈ (newFlow g₀).sourcePolicies ↔
      g₀.reporter = "Src" ∧ x ∈ (enforcedOf g₀).map policyLabel := by
    show x ∈ (addSidePolicies g₀ [] []).1 ↔ _
    unfold addSidePolicies
    by_cases h₁ : g₀.reporter = "Src"
    · rw [if_pos h₁]
      rw [show ((enforcedOf g₀).foldl (fun s p => setAdd s (policyLabel p)) [],
            ([] : List String)).1 =
          (enforcedOf g₀).foldl (fun s p => setAdd s (policyLabel p)) [] from rfl]
      rw [foldl_setAdd_mem]
      simp [h₁]
    · rw [if_neg h₁]
      by_cases h₂ : g₀.reporter = "Dst" <;> simp [h₁, h₂]
  rw [hnew]
  constructor
  · rintro (hr | ⟨z, hz, hp⟩)
    · exact ⟨g₀, List.mem_cons_self _ _, hr⟩
    · exact ⟨z, List.mem_cons_of_mem _ hz, hp⟩
  · rintro ⟨z, hz, hp⟩
    rcases List.mem_cons.mp hz with rfl | hz'
    · exact Or.inl hp
    · exact Or.inr ⟨z, hz', hp⟩

theorem group_destPolicies (g₀ : RawFlowRecord) (gs : List RawFlowRecord) (x : String) :
    x ∈ (gs.foldl mergeFlow (newFlow g₀)).destPolicies ↔
      ∃ r ∈ g₀ :: gs, r.reporter = "Dst" ∧ x ∈ (enforcedOf r).map policyLabel := by
  rw [foldl_mergeFlow_destPolicies]
  have hnew : x ∈ (newFlow g₀).destPolicies ↔
      g₀.reporter = "Dst" ∧ x ∈ (enforcedOf g₀).map policyLabel := by
    show x ∈ (addSidePolicies g₀ [] []).2 ↔ _
    unfold addSidePolicies
    by_cases h₁ : g₀.reporter = "Src"
    · have hne : g₀.reporter ≠ "Dst" := by rw [h₁]; decide
      rw [if_pos h₁]
      simp [hne]
    · rw [if_neg h₁]
      by_cases h₂ : g₀.reporter = "Dst"
      · rw [if_pos h₂]
        rw [show (([] : List String),
              (enforcedOf g₀).foldl (fun s p => setAdd s (policyLabel p)) []).2 =
            (enforcedOf g₀).foldl (fun s p => setAdd s (policyLabel p)) [] from rfl]
        rw [foldl_setAdd_mem]
        simp [h₂]
      · rw [if_neg h₂]
        simp [h₂]
  rw [hnew]
  constructor
  · rintro (hr | ⟨z, hz, hp⟩)
    · exact ⟨g₀, List.mem_cons_self _ _, hr⟩
    · exact ⟨z, List.mem_cons_of_mem _ hz, hp⟩
  · rintro ⟨z, hz, hp⟩
    rcases List.mem_cons.mp hz with rfl | hz'
    · exact Or.inl hp
    · exact Or.inr ⟨z, hz', hp⟩

theorem group_enforced (g₀ : RawFlowRecord) (gs : List RawFlowRecord) :
    (gs.foldl mergeFlow (newFlow g₀)).enforcedPolicies =
      ((g₀ :: gs).map enforcedOf).flatten := by
  rw [foldl_mergeFlow_enforced]
  show enforcedOf g₀ ++ _ = _
  simp

/-! ## Claim C1: aggregation is order-independent -/

instance (r : RawFlowRecord) : Decidable (actionOk r) := by
  unfold actionOk
  infer_instance

/-- Sameness of two aggregated flows in the sense of the specification:
equal counters, equal time window, equal side actions, equal side policy
sets (as sets) and equal enforced-policy contents (as multisets). -/
def flowEquiv (f g : Flow) : Prop :=
  f.packetsIn = g.packetsIn ∧ f.packetsOut = g.packetsOut ∧
  f.bytesIn = g.bytesIn ∧ f.bytesOut = g.bytesOut ∧
  f.startTime = g.startTime ∧ f.endTime = g.endTime ∧
  f.sourceAction = g.sourceAction ∧ f.destAction = g.destAction ∧
  (∀ x, x ∈ f.sourcePolicies ↔ x ∈ g.sourcePolicies) ∧
  (∀ x, x ∈ f.destPolicies ↔ x ∈ g.destPolicies) ∧
  f.enforcedPolicies.Perm g.enforcedPolicies

/-- Lift `flowEquiv` to the optional buckets of the flow map: the same
keys must be present on both sides, with equivalent flows. -/
def optionFlowEquiv : Option Flow → Option Flow → Prop
  | none, none => True
  | some f, some g => flowEquiv f g
  | _, _ => False

theorem processGroup_cons_eq (g₀ : RawFlowRecord) (gs : List RawFlowRecord) :
    processGroup none (g₀ :: gs) = some (gs.foldl mergeFlow (newFlow g₀)) := by
  rw [show processGroup none (g₀ :: gs) = processGroup (some (newFlow g₀)) gs from rfl,
    processGroup_some]

/-- C1: for every list of raw flow records (with the documented
`Allow`/`Deny` actions) and every permutation of it, the flow-map
construction inside `getNamespaceFlowSummary` yields the identical Flow
set as a set: every key receives the same bucket up to `flowEquiv`
(same counters, time window, side actions, policy sets and
enforced-policy contents). -/
theorem aggregate_perm_invariant (logs logs' : List RawFlowRecord)
    (hperm : logs.Perm logs') (hact : ∀ r ∈ logs, actionOk r) (k : String) :
    optionFlowEquiv (findFlow (aggregate logs) k) (findFlow (aggregate logs') k) := by
  rw [findFlow_aggregate, findFlow_aggregate]
  have hgp0 : (logs.filter (fun r => flowKey r == k)).Perm
      (logs'.filter (fun r => flowKey r == k)) := hperm.filter _
  cases hcase : logs.filter (fun r => flowKey r == k) with
  | nil =>
    rw [hcase] at hgp0
    rw [List.Perm.eq_nil hgp0.symm]
    exact trivial
  | cons g₀ gs =>
    cases hcase' : logs'.filter (fun r => flowKey r == k) with
    | nil =>
      rw [hcase, hcase'] at hgp0
      exact absurd (List.Perm.eq_nil hgp0) (by simp)
    | cons g₀' gs' =>
      have hgp : (g₀ :: gs).Perm (g₀' :: gs') := by rw [← hcase, ← hcase']; exact hgp0
      have hsub : ∀ r ∈ g₀ :: gs, r ∈ logs := by
        rw [← hcase]; exact fun r hr => List.mem_of_mem_filter hr
      have hkey : ∀ r ∈ g₀ :: gs, flowKey r = k := by
        rw [← hcase]
        intro r hr
        have := List.of_mem_filter hr
        simpa using this
      have hallg : ∀ r ∈ g₀ :: gs, r.action = g₀.action := fun r hr =>
        action_eq_of_flowKey_eq r g₀
          (by rw [hkey r hr, hkey g₀ (List.mem_cons_self _ _)])
          (hact r (hsub r hr)) (hact g₀ (hsub g₀ (List.mem_cons_self _ _)))
      have hallg' : ∀ r ∈ g₀' :: gs', r.action = g₀.action := fun r hr =>
        hallg r (hgp.mem_iff.mpr hr)
      have hna : g₀.action ≠ "N/A" := by
        rcases hact g₀ (hsub g₀ (List.mem_cons_self _ _)) with h | h <;> rw [h] <;> decide
      rw [processGroup_cons_eq, processGroup_cons_eq]
      show flowEquiv (gs.foldl mergeFlow (newFlow g₀)) (gs'.foldl mergeFlow (newFlow g₀'))
      have hmap : ∀ (f : RawFlowRecord → String),
          (f g₀ :: gs.map f).Perm (f g₀' :: gs'.map f) := fun f => by
        have := hgp.map f
        simpa using this
      refine ⟨?_, ?_, ?_, ?_, ?_, ?_, ?_, ?_, ?_, ?_, ?_⟩
      · rw [group_packetsIn, group_packetsIn]
        exact (hgp.map (·.packets_in)).sum_eq
      · rw [group_packetsOut, group_packetsOut]
        exact (hgp.map (·.packets_out)).sum_eq
      · rw [group_bytesIn, group_bytesIn]
        exact (hgp.map (·.bytes_in)).sum_eq
      · rw [group_bytesOut, group_bytesOut]
        exact (hgp.map (·.bytes_out)).sum_eq
      · rw [group_startTime, group_startTime]
        have hm := hmap (·.start_time)
        apply le_antisymm
        · exact minFold_le _ _ _ (hm.mem_iff.mpr (minFold_mem _ _))
        · exact minFold_le _ _ _ (hm.mem_iff.mp (minFold_mem _ _))
      · rw [group_endTime, group_endTime]
        have hm := hmap (·.end_time)
        apply le_antisymm
        · exact maxFold_ge _ _ _ (hm.mem_iff.mp (maxFold_mem _ _))
        · exact maxFold_ge _ _ _ (hm.mem_iff.mpr (maxFold_mem _ _))
      · rw [group_sourceAction g₀ gs g₀.action hallg hna,
          group_sourceAction g₀' gs' g₀.action hallg' hna]
        by_cases hex : ∃ r ∈ g₀ :: gs, r.reporter = "Src"
        · obtain ⟨r, hr, hs⟩ := hex
          rw [if_pos ⟨r, hr, hs⟩, if_pos ⟨r, hgp.mem_iff.mp hr, hs⟩]
        · rw [if_neg hex, if_neg (fun ⟨r, hr, hs⟩ => hex ⟨r, hgp.mem_iff.mpr hr, hs⟩)]
      · rw [group_destAction g₀ gs g₀.action hallg hna,
          group_destAction g₀' gs' g₀.action hallg' hna]
        by_cases hex : ∃ r ∈ g₀ :: gs, r.reporter = "Dst"
        · obtain ⟨r, hr, hs⟩ := hex
          rw [if_pos ⟨r, hr, hs⟩, if_pos ⟨r, hgp.mem_iff.mp hr, hs⟩]
        · rw [if_neg hex, if_neg (fun ⟨r, hr, hs⟩ => hex ⟨r, hgp.mem_iff.mpr hr, hs⟩)]
      · intro x
        rw [group_sourcePolicies, group_sourcePolicies]
        constructor
        · rintro ⟨r, hr, h⟩; exact ⟨r, hgp.mem_iff.mp hr, h⟩
        · rintro ⟨r, hr, h⟩; exact ⟨r, hgp.mem_iff.mpr hr, h⟩
      · intro x
        rw [group_destPolicies, group_destPolicies]
        constructor
        · rintro ⟨r, hr, h⟩; exact ⟨r, hgp.mem_iff.mp hr, h⟩
        · rintro ⟨r, hr, h⟩; exact ⟨r, hgp.mem_iff.mpr hr, h⟩
      · rw [group_enforced, group_enforced]
        exact flatten_perm_of_perm (hgp.map enforcedOf)

/-- A second observation of the sample flow from the destination side. -/
def sampleAllowDst : RawFlowRecord :=
  { sampleAllow with
    reporter := "Dst", packets_in := 3, packets_out := 4, bytes_in := 30, bytes_out := 40
    start_time := "2023-12-31T23:00:00Z", end_time := "2024-01-01T00:02:00Z" }

/-- Witness for C1: swapping two concrete mergeable records leaves the
aggregated bucket equivalent. -/
theorem aggregate_perm_invariant_witness :
    optionFlowEquiv
      (findFlow (aggregate [sampleAllow, sampleAllowDst]) (flowKey sampleAllow))
      (findFlow (aggregate [sampleAllowDst, sampleAllow]) (flowKey sampleAllow)) :=
  aggregate_perm_invariant [sampleAllow, sampleAllowDst] [sampleAllowDst, sampleAllow]
    (List.Perm.swap sampleAllowDst sampleAllow []) (by decide) (flowKey sampleAllow)

/-! ## Claim C10: side actions never leave the key's action -/

/-- C10: with the documented `Allow`/`Deny` actions, every aggregated
flow's `sourceAction` and `destAction` is either the sentinel "N/A" or
exactly the action of the records of its key, and no aggregated action
string ever contains the conflict marker `'+'` (the concatenation branch
never fires). -/
theorem aggregate_action_invariant (logs : List RawFlowRecord)
    (hact : ∀ r ∈ logs, actionOk r) (k : String) (f : Flow)
    (hf : findFlow (aggregate logs) k = some f) :
    ('+' ∉ f.sourceAction.data ∧ '+' ∉ f.destAction.data) ∧
      (f.sourceAction = "N/A" ∨ ∀ r ∈ logs, flowKey r = k → f.sourceAction = r.action) ∧
      (f.destAction = "N/A" ∨ ∀ r ∈ logs, flowKey r = k → f.destAction = r.action) := by
  rw [findFlow_aggregate] at hf
  cases hcase : logs.filter (fun r => flowKey r == k) with
  | nil =>
    rw [hcase] at hf
    exact absurd hf (by simp [processGroup])
  | cons g₀ gs =>
    rw [hcase, processGroup_cons_eq, Option.some.injEq] at hf
    have hsub : ∀ r ∈ g₀ :: gs, r ∈ logs := by
      rw [← hcase]; exact fun r hr => List.mem_of_mem_filter hr
    have hkey : ∀ r ∈ g₀ :: gs, flowKey r = k := by
      rw [← hcase]
      intro r hr
      have := List.of_mem_filter hr
      simpa using this
    have hallg : ∀ r ∈ g₀ :: gs, r.action = g₀.action := fun r hr =>
      action_eq_of_flowKey_eq r g₀
        (by rw [hkey r hr, hkey g₀ (List.mem_cons_self _ _)])
        (hact r (hsub r hr)) (hact g₀ (hsub g₀ (List.mem_cons_self _ _)))
    have hok : actionOk g₀ := hact g₀ (hsub g₀ (List.mem_cons_self _ _))
    have hna : g₀.action ≠ "N/A" := by
      rcases hok with h | h <;> rw [h] <;> decide
    have hmemg : ∀ r ∈ logs, flowKey r = k → r ∈ g₀ :: gs := by
      intro r hr hk
      rw [← hcase]
      exact List.mem_filter.mpr ⟨hr, by simp [hk]⟩
    have hsrc := group_sourceAction g₀ gs g₀.action hallg hna
    have hdst := group_destAction g₀ gs g₀.action hallg hna
    rw [hf] at hsrc hdst
    refine ⟨⟨?_, ?_⟩, ?_, ?_⟩
    · rw [hsrc]
      by_cases hex : ∃ r ∈ g₀ :: gs, r.reporter = "Src"
      · rw [if_pos hex]
        rcases hok with h | h <;> rw [h] <;> decide
      · rw [if_neg hex]; decide
    · rw [hdst]
      by_cases hex : ∃ r ∈ g₀ :: gs, r.reporter = "Dst"
      · rw [if_pos hex]
        rcases hok with h | h <;> rw [h] <;> decide
      · rw [if_neg hex]; decide
    · rw [hsrc]
      by_cases hex : ∃ r ∈ g₀ :: gs, r.reporter = "Src"
      · rw [if_pos hex]
        exact Or.inr (fun r hr hk => (hallg r (hmemg r hr hk)).symm)
      · rw [if_neg hex]
        exact Or.inl rfl
    · rw [hdst]
      by_cases hex : ∃ r ∈ g₀ :: gs, r.reporter = "Dst"
      · rw [if_pos hex]
        exact Or.inr (fun r hr hk => (hallg r (hmemg r hr hk)).symm)
      · rw [if_neg hex]
        exact Or.inl rfl

/-- Witness for C10 on a concrete aggregation. -/
theorem aggregate_action_invariant_witness :
    ('+' ∉ (newFlow sampleAllow).sourceAction.data ∧
        '+' ∉ (newFlow sampleAllow).destAction.data) ∧
      ((newFlow sampleAllow).sourceAction = "N/A" ∨
        ∀ r ∈ [sampleAllow], flowKey r = flowKey sampleAllow →
          (newFlow sampleAllow).sourceAction = r.action) ∧
      ((newFlow sampleAllow).destAction = "N/A" ∨
        ∀ r ∈ [sampleAllow], flowKey r = flowKey sampleAllow →
          (newFlow sampleAllow).destAction = r.action) :=
  aggregate_action_invariant [sampleAllow] (by decide) (flowKey sampleAllow)
    (newFlow sampleAllow) (by decide)

/-! ## Summary document (`getNamespaceFlowSummary`, lines 254-366)

The JSON document returned by the service is embedded structurally
(`JSON.stringify` is not modelled). `new Date(s).getTime()` is an
external oracle `parseTime`, and the locale-collating comparator sort is
embedded as a stable ascending sort by start time. -/

/-- The emoji decoration applied to action strings (lines 255-263). -/
def formatAction (action : String) : String :=
  if action = "Allow" then "✅ Allow"
  else if action = "Deny" then "🚨 Deny"
  else if action = "N/A" then "❌ N/A"
  else action

/-- JS `[...new Set(l)]`: insertion-order deduplication. -/
def jsSetOf (l : List String) : List String :=
  l.foldl setAdd []

/-- JS `Array.prototype.sort()` on strings (default lexicographic). -/
def sortStrings (l : List String) : List String :=
  l.insertionSort (fun a b => a ≤ b)

structure EndpointOut where
  name : String
  namespace_ : String
  action : String
  policies : List String
  deriving DecidableEq, Repr

structure ConnectionOut where
  protocol : String
  port : Option Int
  deriving DecidableEq, Repr

structure PolicyDetailOut where
  name : String
  namespace_ : String
  kind : String
  tier : String
  action : String
  policyIndex : Int
  ruleIndex : Int
  deriving DecidableEq, Repr

structure EnforcementOut where
  totalPolicies : Nat
  uniquePolicies : List String
  policyDetails : List PolicyDetailOut
  deriving DecidableEq, Repr

structure CountersOut where
  in_ : Int
  out : Int
  total : Int
  deriving DecidableEq, Repr

structure TrafficOut where
  packets : CountersOut
  bytes : CountersOut
  deriving DecidableEq, Repr

structure TimeRangeOut where
  start : String
  end_ : String
  duration : Int
  deriving DecidableEq, Repr

structure FlowOut where
  source : EndpointOut
  destination : EndpointOut
  connection : ConnectionOut
  enforcement : EnforcementOut
  traffic : TrafficOut
  timeRange : TimeRangeOut
  status : String
  deriving DecidableEq, Repr

/-- The `.map(flow => ...)` body turning an aggregated flow into its
output document (lines 267-315). -/
def mkFlowOut (parseTime : String → Int) (flow : Flow) : FlowOut :=
  { source := { name := flow.source, namespace_ := flow.sourceNamespace
                action := formatAction flow.sourceAction
                policies := sortStrings flow.sourcePolicies }
    destination := { name := flow.destination, namespace_ := flow.destNamespace
                     action := formatAction flow.destAction
                     policies := sortStrings flow.destPolicies }
    connection := { protocol := flow.protocol, port := flow.port }
    enforcement :=
      { totalPolicies := flow.enforcedPolicies.length
        uniquePolicies := sortStrings (jsSetOf (flow.enforcedPolicies.map policyLabel))
        policyDetails := flow.enforcedPolicies.map (fun p =>
          { name := p.name, namespace_ := p.namespace_, kind := p.kind, tier := p.tier
            action := p.action, policyIndex := p.policy_index, ruleIndex := p.rule_index }) }
    traffic :=
      { packets := { in_ := flow.packetsIn, out := flow.packetsOut
                     total := flow.packetsIn + flow.packetsOut }
        bytes := { in_ := flow.bytesIn, out := flow.bytesOut
                   total := flow.bytesIn + flow.bytesOut } }
    timeRange := { start := flow.startTime, end_ := flow.endTime
                   duration := parseTime flow.endTime - parseTime flow.startTime }
    status := if flow.sourceAction = "Deny" ∨ flow.destAction = "Deny" then "🚨 BLOCKED"
      else "✅ ALLOWED" }

/-- The map values sorted by start time (line 266 / 317). -/
def sortedFlowValues (logs : List RawFlowRecord) : List Flow :=
  ((aggregate logs).map Prod.snd).insertionSort (fun a b => a.startTime ≤ b.startTime)

/-- The `flows` array of the summary document. -/
def summaryFlows (parseTime : String → Int) (logs : List RawFlowRecord) : List FlowOut :=
  (sortedFlowValues logs).map (mkFlowOut parseTime)

/-- `flows.filter(flow => flow.status.includes('BLOCKED'))`. -/
def blockedFlowsOf (flows : List FlowOut) : List FlowOut :=
  flows.filter (fun fo => jsIncludes fo.status "BLOCKED")

/-- `flows.filter(flow => flow.status.includes('ALLOWED'))`. -/
def allowedFlowsOf (flows : List FlowOut) : List FlowOut :=
  flows.filter (fun fo => jsIncludes fo.status "ALLOWED")

structure AlertsOut where
  message : String
  blockedFlows : List String
  deriving DecidableEq, Repr

/-- The `securityAlerts` block (lines 361-364). -/
def securityAlertsOf (flows : List FlowOut) : Option AlertsOut :=
  if (blockedFlowsOf flows).length > 0 then
    some { message := "🚨 " ++ toString (blockedFlowsOf flows).length ++
             " blocked flow(s) detected - immediate attention required!"
           blockedFlows := (blockedFlowsOf flows).map (fun fo =>
             fo.source.name ++ " → " ++ fo.destination.name ++ ":" ++
               templateOptInt fo.connection.port) }
  else none

structure TimeWindowOut where
  start : Option String
  end_ : Option String
  duration : Option Int
  deriving DecidableEq, Repr

structure AnalysisOut where
  totalUniqueFlows : Nat
  totalLogEntries : Nat
  timeWindow : TimeWindowOut
  deriving DecidableEq, Repr

structure FlowStatsOut where
  total : Nat
  allowed : Nat
  blocked : Nat
  deriving DecidableEq, Repr

structure TrafficStatsOut where
  totalPackets : Int
  totalBytes : Int
  deriving DecidableEq, Repr

structure PolicyStatsOut where
  totalPolicyApplications : Nat
  uniquePolicies : Nat
  uniquePolicyNames : List String
  tiers : List String
  kinds : List String
  deriving DecidableEq, Repr

structure StatisticsOut where
  flows : FlowStatsOut
  traffic : TrafficStatsOut
  policies : PolicyStatsOut
  deriving DecidableEq, Repr

structure SummaryOut where
  namespace_ : String
  analysis : AnalysisOut
  statistics : StatisticsOut
  flows : List FlowOut
  securityAlerts : Option AlertsOut
  deriving DecidableEq, Repr

/-- The summary object built for a non-empty namespace filter
(lines 316-365). -/
def buildSummary (parseTime : String → Int) (ns : String)
    (namespaceLogs : List RawFlowRecord) : SummaryOut :=
  let flows := summaryFlows parseTime namespaceLogs
  let sortedFlows := sortedFlowValues namespaceLogs
  let earliestTime : Option String := (sortedFlows.head?).map (·.startTime)
  let latestTime : Option String := (sortedFlows.getLast?).map (·.endTime)
  let totalTraffic := flows.foldl
    (fun acc fo => (acc.1 + fo.traffic.packets.total, acc.2 + fo.traffic.bytes.total))
    ((0 : Int), (0 : Int))
  let allPolicies := (flows.map (·.enforcement.policyDetails)).flatten
  let uniquePolicyNames := jsSetOf (allPolicies.map (fun p =>
    p.name ++ " (" ++ p.namespace_ ++ ")"))
  let policyTiers := (jsSetOf (allPolicies.map (·.tier))).filter (fun t => !(t == ""))
  let policyKinds := (jsSetOf (allPolicies.map (·.kind))).filter (fun k => !(k == ""))
  { namespace_ := ns
    analysis :=
      { totalUniqueFlows := (aggregate namespaceLogs).length
        totalLogEntries := namespaceLogs.length
        timeWindow :=
          { start := earliestTime
            end_ := latestTime
            duration :=
              match earliestTime, latestTime with
              | some e, some l =>
                if e ≠ "" ∧ l ≠ "" then some (parseTime l - parseTime e) else none
              | _, _ => none } }
    statistics :=
      { flows := { total := flows.length
                   allowed := (allowedFlowsOf flows).length
                   blocked := (blockedFlowsOf flows).length }
        traffic := { totalPackets := totalTraffic.1, totalBytes := totalTraffic.2 }
        policies := { totalPolicyApplications := allPolicies.length
                      uniquePolicies := uniquePolicyNames.length
                      uniquePolicyNames := sortStrings uniquePolicyNames
                      tiers := sortStrings policyTiers
                      kinds := sortStrings policyKinds } }
    flows := flows
    securityAlerts := securityAlertsOf flows }

/-- Result of `getNamespaceFlowSummary`: either the early "no flow logs"
document (lines 145-153) or the full summary. -/
inductive SummaryResult where
  | noFlows (namespace_ error_ : String) (totalFlows totalLogEntries : Nat)
  | summary (s : SummaryOut)
  deriving DecidableEq, Repr

/-- `getNamespaceFlowSummary` after the flow logs have been fetched. -/
def getNamespaceFlowSummary (parseTime : String → Int) (logs : List RawFlowRecord)
    (ns : String) : SummaryResult :=
  let namespaceLogs := logs.filter
    (fun log => log.source_namespace == ns || log.dest_namespace == ns)
  if namespaceLogs.length = 0 then
    .noFlows ns ("No flow logs found for namespace: " ++ ns) 0 0
  else
    .summary (buildSummary parseTime ns namespaceLogs)

/-! ## Claim C7: BLOCKED status and security alerts -/

theorem mkFlowOut_status (parseTime : String → Int) (f : Flow) :
    (mkFlowOut parseTime f).status =
      if f.sourceAction = "Deny" ∨ f.destAction = "Deny" then "🚨 BLOCKED"
      else "✅ ALLOWED" := rfl

theorem mem_summaryFlows_status (parseTime : String → Int) (logs : List RawFlowRecord)
    (fo : FlowOut) (hfo : fo ∈ summaryFlows parseTime logs) :
    fo.status = "🚨 BLOCKED" ∨ fo.status = "✅ ALLOWED" := by
  obtain ⟨f, _, rfl⟩ := List.mem_map.mp hfo
  rw [mkFlowOut_status]
  by_cases h : f.sourceAction = "Deny" ∨ f.destAction = "Deny"
  · rw [if_pos h]; exact Or.inl rfl
  · rw [if_neg h]; exact Or.inr rfl

theorem status_includes_blocked (fo : FlowOut)
    (h : fo.status = "🚨 BLOCKED" ∨ fo.status = "✅ ALLOWED") :
    jsIncludes fo.status "BLOCKED" = true ↔ fo.status = "🚨 BLOCKED" := by
  rcases h with h | h <;> rw [h]
  · simp only [iff_true]; decide
  · constructor
    · intro hc; exact absurd hc (by decide)
    · intro hc; exact absurd hc (by decide)

/-- C7: in the namespace summary a flow's status is "🚨 BLOCKED" exactly
when its aggregated source-side or destination-side action literally
equals "Deny" (otherwise "✅ ALLOWED"), and `securityAlerts` is non-null
exactly when at least one flow of the document is blocked, in which case
it lists each blocked flow's endpoints and port. -/
theorem summary_status_and_alerts (parseTime : String → Int)
    (logs : List RawFlowRecord) (ns : String) :
    (∀ f : Flow, ((mkFlowOut parseTime f).status = "🚨 BLOCKED" ↔
        (f.sourceAction = "Deny" ∨ f.destAction = "Deny")) ∧
      ((mkFlowOut parseTime f).status ≠ "🚨 BLOCKED" →
        (mkFlowOut parseTime f).status = "✅ ALLOWED")) ∧
    ((buildSummary parseTime ns logs).securityAlerts.isSome = true ↔
      ∃ fo ∈ (buildSummary parseTime ns logs).flows, fo.status = "🚨 BLOCKED") ∧
    (∀ al, (buildSummary parseTime ns logs).securityAlerts = some al →
      al.blockedFlows =
        (((buildSummary parseTime ns logs).flows.filter
            (fun fo => jsIncludes fo.status "BLOCKED")).map
          (fun fo => fo.source.name ++ " → " ++ fo.destination.name ++ ":" ++
            templateOptInt fo.connection.port))) := by
  have hflows : (buildSummary parseTime ns logs).flows = summaryFlows parseTime logs := rfl
  have halerts : (buildSummary parseTime ns logs).securityAlerts =
      securityAlertsOf (summaryFlows parseTime logs) := rfl
  refine ⟨?_, ?_, ?_⟩
  · intro f
    constructor
    · rw [mkFlowOut_status]
      by_cases h : f.sourceAction = "Deny" ∨ f.destAction = "Deny"
      · rw [if_pos h]
        exact ⟨fun _ => h, fun _ => rfl⟩
      · rw [if_neg h]
        exact ⟨fun hc => absurd hc (by decide), fun hc => absurd hc h⟩
    · rw [mkFlowOut_status]
      by_cases h : f.sourceAction = "Deny" ∨ f.destAction = "Deny"
      · rw [if_pos h]
        intro hc
        exact absurd rfl hc
      · rw [if_neg h]
        intro _
        rfl
  · rw [halerts, hflows]
    unfold securityAlertsOf
    by_cases h : (blockedFlowsOf (summaryFlows parseTime logs)).length > 0
    · rw [if_pos h]
      simp only [Option.isSome_some, true_iff]
      have hne : blockedFlowsOf (summaryFlows parseTime logs) ≠ [] := by
        intro hnil
        rw [hnil] at h
        exact absurd h (by decide)
      obtain ⟨fo, hfo⟩ := List.exists_mem_of_ne_nil _ hne
      have hmem := List.mem_of_mem_filter hfo
      have hinc := List.of_mem_filter hfo
      exact ⟨fo, hmem,
        (status_includes_blocked fo (mem_summaryFlows_status parseTime logs fo hmem)).mp hinc⟩
    · rw [if_neg h]
      simp only [Option.isSome_none, Bool.false_eq_true, false_iff]
      rintro ⟨fo, hfo, hst⟩
      have hmem : fo ∈ blockedFlowsOf (summaryFlows parseTime logs) :=
        List.mem_filter.mpr ⟨hfo, by rw [hst]; decide⟩
      exact h (List.length_pos.mpr (List.ne_nil_of_mem hmem))
  · intro al
    rw [halerts, hflows]
    unfold securityAlertsOf
    by_cases h : (blockedFlowsOf (summaryFlows parseTime logs)).length > 0
    · rw [if_pos h]
      intro hal
      have := (Option.some.injEq _ _).mp hal
      rw [← this]
      rfl
    · rw [if_neg h]
      intro hal
      exact absurd hal (by simp)

/-- Witness for C7 on a concrete summary containing one blocked flow. -/
theorem summary_status_and_alerts_witness :
    ((buildSummary (fun _ => 0) "default" [sampleDeny]).securityAlerts.isSome = true ↔
      ∃ fo ∈ (buildSummary (fun _ => 0) "default" [sampleDeny]).flows,
        fo.status = "🚨 BLOCKED") :=
  (summary_status_and_alerts (fun _ => 0) [sampleDeny] "default").2.1

/-! ## Policy resolution (`retrievePolicyDetails`, lines 601-654)

The kubectl child process is an external oracle: an environment maps the
query (resource type, policy name, optional namespace argument) to the
outcome of the process. The promise executor resolves in every branch —
with the trimmed stdout on exit code 0, with `null` on a non-zero exit,
a spawn error, a timeout, or an unsupported policy kind — and never
rejects; the `Except` layer records rejection, which is thus provably
unreachable. -/

inductive KubectlOutcome where
  | exitZero (stdout : String)
  | exitNonzero (code : Int) (stderr : String)
  | spawnError (msg : String)
  | timeout
  deriving DecidableEq, Repr

structure KubectlQuery where
  resource : String
  name : String
  nsArg : Option String
  deriving DecidableEq, Repr

def KubectlEnv := KubectlQuery → KubectlOutcome

/-- The fixed kind-to-resource table (lines 604-618). -/
def kindToResource : String → Option String
  | "CalicoNetworkPolicy" => some "caliconetworkpolicy"
  | "NetworkPolicy" => some "networkpolicy"
  | "GlobalNetworkPolicy" => some "globalnetworkpolicy"
  | _ => none

/-- `retrievePolicyDetails`: a JS promise that may in principle reject
(`Except.error`) but in fact resolves in every branch. An absent
namespace argument is embedded as the empty string (both are falsy in
the `if (policyNamespace && ...)` guard). -/
def retrievePolicyDetails (env : KubectlEnv)
    (policyName policyNamespace policyKind : String) : Except String (Option String) :=
  match kindToResource policyKind with
  | none => .ok none
  | some resourceType =>
    match env { resource := resourceType, name := policyName
                nsArg := if policyNamespace ≠ "" ∧ policyKind ≠ "GlobalNetworkPolicy" then
                  some policyNamespace else none } with
    | .exitZero out => .ok (some (jsTrim out))
    | .exitNonzero _ _ => .ok none
    | .spawnError _ => .ok none
    | .timeout => .ok none

/-! ## Blocked-flow analysis (`analyzeBlockedFlows`, lines 482-599) -/

structure BlockingPolicy where
  triggerPolicy : TriggerRef
  policyYaml : Option String
  error : Option String
  blockingReason : String
  deriving DecidableEq, Repr

/-- The try/catch body for a pending policy hit (lines 506-522). -/
def mkPendingEntry (env : KubectlEnv) (ph : PolicyHit) (t : TriggerRef) : BlockingPolicy :=
  match retrievePolicyDetails env t.name t.namespace_ t.kind with
  | .ok v =>
    { triggerPolicy := t, policyYaml := v, error := none
      blockingReason := if ph.action = "Deny" then "Explicit deny rule"
        else "End of tier default deny" }
  | .error e =>
    { triggerPolicy := t, policyYaml := none
      error := some ("Failed to retrieve policy: " ++ e)
      blockingReason := if ph.action = "Deny" then "Explicit deny rule"
        else "End of tier default deny" }

/-- The try/catch body for an enforced policy hit (lines 529-545). -/
def mkEnforcedEntry (env : KubectlEnv) (t : TriggerRef) : BlockingPolicy :=
  match retrievePolicyDetails env t.name t.namespace_ t.kind with
  | .ok v =>
    { triggerPolicy := t, policyYaml := v, error := none
      blockingReason := "Enforced deny rule" }
  | .error e =>
    { triggerPolicy := t, policyYaml := none
      error := some ("Failed to retrieve policy: " ++ e)
      blockingReason := "Enforced deny rule" }

/-- The pending-hit pass: one entry for every pending hit whose trigger
is present with a truthy (non-empty) name. -/
def pendingEntries (env : KubectlEnv) (log : RawFlowRecord) : List BlockingPolicy :=
  ((pendingOf log).map (fun ph =>
    match ph.trigger with
    | some t => if t.name ≠ "" then [mkPendingEntry env ph t] else []
    | none => [])).flatten

/-- The enforced-hit pass: one entry for every enforced hit with action
`Deny` and a trigger present with a truthy name. -/
def enforcedEntries (env : KubectlEnv) (log : RawFlowRecord) : List BlockingPolicy :=
  ((enforcedOf log).map (fun eh =>
    if eh.action = "Deny" then
      match eh.trigger with
      | some t => if t.name ≠ "" then [mkEnforcedEntry env t] else []
      | none => []
    else [])).flatten

def blockingPoliciesOf (env : KubectlEnv) (log : RawFlowRecord) : List BlockingPolicy :=
  pendingEntries env log ++ enforcedEntries env log

structure BlockedFlowInfo where
  source : String
  destination : String
  protocol : String
  port : Option Int
  action : String
  reporter : String
  timeRange : String
  deriving DecidableEq, Repr

structure BlockedTraffic where
  packetsIn : Int
  packetsOut : Int
  bytesIn : Int
  bytesOut : Int
  deriving DecidableEq, Repr

structure RecordAnalysis where
  flow : BlockedFlowInfo
  traffic : BlockedTraffic
  blockingPolicies : List BlockingPolicy
  totalBlockingPolicies : Nat
  recommendation : String
  deriving DecidableEq, Repr

/-- The per-denied-record analysis object (lines 500-572). -/
def mkRecordAnalysis (env : KubectlEnv) (log : RawFlowRecord) : RecordAnalysis :=
  let bps := blockingPoliciesOf env log
  { flow :=
      { source := log.source_name ++ " (" ++ log.source_namespace ++ ")"
        destination := log.dest_name ++ " (" ++ log.dest_namespace ++ ")"
        protocol := log.protocol
        port := log.dest_port
        action := log.action
        reporter := log.reporter
        timeRange := log.start_time ++ " to " ++ log.end_time }
    traffic :=
      { packetsIn := log.packets_in, packetsOut := log.packets_out
        bytesIn := log.bytes_in, bytesOut := log.bytes_out }
    blockingPolicies := bps
    totalBlockingPolicies := bps.length
    recommendation := if bps.length > 0 then
        "Review the identified policies to understand why traffic is being blocked. Consider modifying the policy rules if this traffic should be allowed."
      else
        "No specific blocking policies identified. This may be due to default deny behavior or policy ordering." }

/-- `Math.min(...)` over a non-empty list (the empty case is unreachable
in the analysis branch). -/
def intListMin : List Int → Int
  | [] => 0
  | x :: xs => xs.foldl min x

def intListMax : List Int → Int
  | [] => 0
  | x :: xs => xs.foldl max x

/-- `namespace || 'all'`. -/
def jsNsLabel (ns : Option String) : String :=
  if strTruthy ns then ns.getD "" else "all"

/-- The Deny filter plus the optional namespace restriction
(lines 487-491). -/
def blockedFilter (logs : List RawFlowRecord) (ns : Option String) : List RawFlowRecord :=
  let blocked := logs.filter (fun log => log.action == "Deny")
  if strTruthy ns then
    blocked.filter (fun log =>
      log.source_namespace == ns.getD "" || log.dest_namespace == ns.getD "")
  else blocked

structure BlockedAnalysisOut where
  namespace_ : String
  totalBlockedFlows : Nat
  uniqueBlockedConnections : Nat
  windowStart : Int
  windowEnd : Int
  blockedFlows : List RecordAnalysis
  message : String
  recommendations : List String
  deriving DecidableEq, Repr

/-- Result of `analyzeBlockedFlows`: the explicit "no blocked flows"
document (lines 492-498) or the analysis summary. -/
inductive AnalyzeResult where
  | noBlocked (namespace_ message : String) (blockedFlows : List RecordAnalysis)
  | analysis (a : BlockedAnalysisOut)
  deriving DecidableEq, Repr

def analyzeRecommendations : List String :=
  ["Review each blocking policy to ensure it aligns with your security requirements",
   "Consider if any blocked flows represent legitimate traffic that should be allowed",
   "Verify that policy ordering and tier configuration are correct",
   "Monitor for patterns that might indicate security threats or misconfigurations"]

/-- `analyzeBlockedFlows` after the flow logs have been fetched;
`new Date(...).getTime()` is the `parseTime` oracle. -/
def analyzeBlockedFlows (env : KubectlEnv) (parseTime : String → Int)
    (logs : List RawFlowRecord) (ns : Option String) : AnalyzeResult :=
  let blockedLogs := blockedFilter logs ns
  if blockedLogs.length = 0 then
    .noBlocked (jsNsLabel ns) "No blocked flows found" []
  else
    .analysis
      { namespace_ := jsNsLabel ns
        totalBlockedFlows := blockedLogs.length
        uniqueBlockedConnections := (jsSetOf (blockedLogs.map (fun log =>
          log.source_name ++ "→" ++ log.dest_name ++ ":" ++
            templateOptInt log.dest_port))).length
        windowStart := intListMin (blockedLogs.map (fun log => parseTime log.start_time))
        windowEnd := intListMax (blockedLogs.map (fun log => parseTime log.end_time))
        blockedFlows := blockedLogs.map (mkRecordAnalysis env)
        message := "🚨 " ++ toString blockedLogs.length ++ " blocked flow(s) detected"
        recommendations := analyzeRecommendations }

/-- The per-record analyses contained in an analysis result. -/
def resultRecords : AnalyzeResult → List RecordAnalysis
  | .noBlocked _ _ bf => bf
  | .analysis a => a.blockedFlows

/-- The blocking-policy lists of the per-record analyses. -/
def resultBlockingLists (r : AnalyzeResult) : List (List BlockingPolicy) :=
  (resultRecords r).map (·.blockingPolicies)

/-! ## Facts about policy resolution and the analysis -/

/-- The promise of `retrievePolicyDetails` settles by `resolve` in every
branch: it never rejects. -/
theorem retrieve_isOk (env : KubectlEnv) (n ns k : String) :
    ∃ v, retrievePolicyDetails env n ns k = Except.ok v := by
  unfold retrievePolicyDetails
  cases kindToResource k with
  | none => exact ⟨none, rfl⟩
  | some resourceType =>
    dsimp only
    cases env { resource := resourceType, name := n
                nsArg := if ns ≠ "" ∧ k ≠ "GlobalNetworkPolicy" then some ns else none } <;>
      exact ⟨_, rfl⟩

theorem mkPendingEntry_trigger (env : KubectlEnv) (ph : PolicyHit) (t : TriggerRef) :
    (mkPendingEntry env ph t).triggerPolicy = t := by
  unfold mkPendingEntry
  cases retrievePolicyDetails env t.name t.namespace_ t.kind <;> rfl

theorem mkPendingEntry_reason (env : KubectlEnv) (ph : PolicyHit) (t : TriggerRef) :
    (mkPendingEntry env ph t).blockingReason =
      (if ph.action = "Deny" then "Explicit deny rule" else "End of tier default deny") := by
  unfold mkPendingEntry
  cases retrievePolicyDetails env t.name t.namespace_ t.kind <;> rfl

theorem mkPendingEntry_error_none (env : KubectlEnv) (ph : PolicyHit) (t : TriggerRef) :
    (mkPendingEntry env ph t).error = none := by
  obtain ⟨v, hv⟩ := retrieve_isOk env t.name t.namespace_ t.kind
  unfold mkPendingEntry
  rw [hv]

theorem mkPendingEntry_yaml_none (env : KubectlEnv) (ph : PolicyHit) (t : TriggerRef)
    (hfail : retrievePolicyDetails env t.name t.namespace_ t.kind = Except.ok none) :
    (mkPendingEntry env ph t).policyYaml = none := by
  unfold mkPendingEntry
  rw [hfail]

theorem mkEnforcedEntry_error_none (env : KubectlEnv) (t : TriggerRef) :
    (mkEnforcedEntry env t).error = none := by
  obtain ⟨v, hv⟩ := retrieve_isOk env t.name t.namespace_ t.kind
  unfold mkEnforcedEntry
  rw [hv]

theorem mem_blockingPolicies_error_none (env : KubectlEnv) (log : RawFlowRecord)
    (bp : BlockingPolicy) (h : bp ∈ blockingPoliciesOf env log) : bp.error = none := by
  rcases List.mem_append.mp h with hp | he
  · obtain ⟨l, hl, hbp⟩ := List.mem_flatten.mp hp
    obtain ⟨ph, _, hf⟩ := List.mem_map.mp hl
    cases ht : ph.trigger with
    | none =>
      simp only [ht] at hf
      rw [← hf] at hbp
      exact absurd hbp (by simp)
    | some t =>
      simp only [ht] at hf
      by_cases hn : t.name ≠ ""
      · rw [if_pos hn] at hf
        rw [← hf] at hbp
        rw [List.mem_singleton.mp hbp]
        exact mkPendingEntry_error_none env ph t
      · rw [if_neg hn] at hf
        rw [← hf] at hbp
        exact absurd hbp (by simp)
  · obtain ⟨l, hl, hbp⟩ := List.mem_flatten.mp he
    obtain ⟨eh, _, hf⟩ := List.mem_map.mp hl
    by_cases hd : eh.action = "Deny"
    · rw [if_pos hd] at hf
      cases ht : eh.trigger with
      | none =>
        simp only [ht] at hf
        rw [← hf] at hbp
        exact absurd hbp (by simp)
      | some t =>
        simp only [ht] at hf
        by_cases hn : t.name ≠ ""
        · rw [if_pos hn] at hf
          rw [← hf] at hbp
          rw [List.mem_singleton.mp hbp]
          exact mkEnforcedEntry_error_none env t
        · rw [if_neg hn] at hf
          rw [← hf] at hbp
          exact absurd hbp (by simp)
    · rw [if_neg hd] at hf
      rw [← hf] at hbp
      exact absurd hbp (by simp)

/-- The kubectl environment in which every lookup times out. -/
def envTimeout : KubectlEnv := fun _ => KubectlOutcome.timeout

/-! ## Claim C8: empty Deny set -/

/-- C8: when the (optionally namespace-restricted) input contains no
Deny-action records, `analyzeBlockedFlows` returns the explicit
"No blocked flows found" document, which is a different constructor from
any analysis carrying a list — and the function is total, so the batch
does not fail. -/
theorem analyze_no_blocked_result (env : KubectlEnv) (parseTime : String → Int)
    (logs : List RawFlowRecord) (ns : Option String)
    (h : blockedFilter logs ns = []) :
    analyzeBlockedFlows env parseTime logs ns =
        .noBlocked (jsNsLabel ns) "No blocked flows found" [] ∧
      ∀ a, analyzeBlockedFlows env parseTime logs ns ≠ .analysis a := by
  have hlen : (blockedFilter logs ns).length = 0 := by rw [h]; rfl
  unfold analyzeBlockedFlows
  rw [if_pos hlen]
  exact ⟨rfl, fun a h' => AnalyzeResult.noConfusion h'⟩

/-- Witness for C8: a concrete record set with no denied records. -/
theorem analyze_no_blocked_result_witness :
    analyzeBlockedFlows envTimeout (fun _ => 0) [sampleAllow] none =
        .noBlocked (jsNsLabel none) "No blocked flows found" [] ∧
      ∀ a, analyzeBlockedFlows envTimeout (fun _ => 0) [sampleAllow] none ≠ .analysis a :=
  analyze_no_blocked_result envTimeout (fun _ => 0) [sampleAllow] none (by decide)

/-! ## Claim C9: retrievePolicyDetails is total over its outcomes -/

/-- The resolved value of a policy lookup: the trimmed stdout on a zero
exit, null on an unsupported kind, a non-zero exit, a spawn error or a
timeout. -/
def retrieveOutcome (env : KubectlEnv) (n ns k : String) : Option String :=
  match kindToResource k with
  | none => none
  | some rt =>
    match env { resource := rt, name := n
                nsArg := if ns ≠ "" ∧ k ≠ "GlobalNetworkPolicy" then some ns
                  else none } with
    | .exitZero out => some (jsTrim out)
    | _ => none

/-- C9: `retrievePolicyDetails` always resolves — to the trimmed stdout
on a zero exit and to null on an unsupported kind, a non-zero exit, a
spawn error or a timeout — and never rejects; consequently no
BlockingPolicy entry produced by `analyzeBlockedFlows` ever carries an
error message: the catch branches are unreachable. -/
theorem retrieve_total_no_error_message (env : KubectlEnv) :
    (∀ n ns k, retrievePolicyDetails env n ns k = Except.ok (retrieveOutcome env n ns k)) ∧
    (∀ parseTime logs nsOpt ra,
      ra ∈ resultRecords (analyzeBlockedFlows env parseTime logs nsOpt) →
      ∀ bp ∈ ra.blockingPolicies, bp.error = none) := by
  constructor
  · intro n ns k
    unfold retrievePolicyDetails retrieveOutcome
    cases kindToResource k with
    | none => rfl
    | some rt =>
      dsimp only
      cases env { resource := rt, name := n
                  nsArg := if ns ≠ "" ∧ k ≠ "GlobalNetworkPolicy" then some ns
                    else none } <;> rfl
  · intro parseTime logs nsOpt ra hra bp hbp
    have hform : ∃ log, ra = mkRecordAnalysis env log := by
      unfold analyzeBlockedFlows at hra
      by_cases hlen : (blockedFilter logs nsOpt).length = 0
      · rw [if_pos hlen] at hra
        exact absurd hra (by simp [resultRecords])
      · rw [if_neg hlen] at hra
        simp only [resultRecords] at hra
        obtain ⟨log, _, hlog⟩ := List.mem_map.mp hra
        exact ⟨log, hlog.symm⟩
    obtain ⟨log, rfl⟩ := hform
    exact mem_blockingPolicies_error_none env log bp hbp

/-- Witness for C9: a timed-out lookup resolves to null, not a rejection. -/
theorem retrieve_total_no_error_message_witness :
    retrievePolicyDetails envTimeout "allow-web" "default" "NetworkPolicy" =
      Except.ok none :=
  (retrieve_total_no_error_message envTimeout).1 "allow-web" "default" "NetworkPolicy"

/-! ## Claim C3: reasons of pending-hit entries -/

/-- A pending hit whose trigger is present but carries an empty name. -/
def cexTrigger : TriggerRef :=
  { kind := "NetworkPolicy", name := "", namespace_ := "default" }

def cexHit : PolicyHit :=
  { kind := "StagedNetworkPolicy", name := "staged-policy", namespace_ := "default"
    tier := "default", action := "Deny", policy_index := 0, rule_index := 0
    trigger := some cexTrigger }

def cexLog : RawFlowRecord :=
  { sampleDeny with policies := some { enforced := [], pending := [cexHit] } }

/-- Counterexample to C3 as stated: a denied record whose pending hit has
a trigger present (with an empty name) produces no BlockingPolicy entry
at all, because the guard also requires a truthy trigger name. -/
theorem analyze_pending_reason_counterexample :
    cexLog.action = "Deny" ∧
      (pendingOf cexLog).map (fun ph => ph.trigger.isSome) = [true] ∧
      resultBlockingLists (analyzeBlockedFlows envTimeout (fun _ => 0) [cexLog] none) =
        [[]] :=
  ⟨rfl, rfl, rfl⟩

/-- C3 (amended): for every denied record analyzed, each pending policy
hit whose trigger is present with a non-empty name produces a
BlockingPolicy entry whose reason is "Explicit deny rule" when the
pending hit's own action is Deny and "End of tier default deny"
otherwise. -/
theorem analyze_pending_reason (env : KubectlEnv) (parseTime : String → Int)
    (logs : List RawFlowRecord) (ns : Option String) (log : RawFlowRecord)
    (hlog : log ∈ blockedFilter logs ns) (ph : PolicyHit) (t : TriggerRef)
    (hph : ph ∈ pendingOf log) (ht : ph.trigger = some t) (hname : t.name ≠ "") :
    ∃ a, analyzeBlockedFlows env parseTime logs ns = .analysis a ∧
      mkRecordAnalysis env log ∈ a.blockedFlows ∧
      ∃ bp ∈ (mkRecordAnalysis env log).blockingPolicies,
        bp.triggerPolicy = t ∧
          bp.blockingReason = (if ph.action = "Deny" then "Explicit deny rule"
            else "End of tier default deny") := by
  have hne : ¬(blockedFilter logs ns).length = 0 := by
    intro h0
    rw [List.length_eq_zero] at h0
    rw [h0] at hlog
    exact absurd hlog (by simp)
  unfold analyzeBlockedFlows
  rw [if_neg hne]
  refine ⟨_, rfl, List.mem_map_of_mem _ hlog, mkPendingEntry env ph t, ?_, ?_, ?_⟩
  · show mkPendingEntry env ph t ∈ blockingPoliciesOf env log
    apply List.mem_append_left
    unfold pendingEntries
    apply List.mem_flatten.mpr
    refine ⟨[mkPendingEntry env ph t], ?_, List.mem_singleton.mpr rfl⟩
    exact List.mem_map.mpr ⟨ph, hph, by simp only [ht]; rw [if_pos hname]⟩
  · exact mkPendingEntry_trigger env ph t
  · exact mkPendingEntry_reason env ph t

/-- A pending hit with a resolvable trigger name. -/
def wTrigger : TriggerRef :=
  { kind := "NetworkPolicy", name := "deny-all", namespace_ := "default" }

def wHit : PolicyHit :=
  { kind := "StagedNetworkPolicy", name := "staged-policy", namespace_ := "default"
    tier := "default", action := "Deny", policy_index := 0, rule_index := 0
    trigger := some wTrigger }

def wLog : RawFlowRecord :=
  { sampleDeny with policies := some { enforced := [], pending := [wHit] } }

/-- Witness for the amended C3 on a concrete denied record. -/
theorem analyze_pending_reason_witness :
    ∃ a, analyzeBlockedFlows envTimeout (fun _ => 0) [wLog] none = .analysis a ∧
      mkRecordAnalysis envTimeout wLog ∈ a.blockedFlows ∧
      ∃ bp ∈ (mkRecordAnalysis envTimeout wLog).blockingPolicies,
        bp.triggerPolicy = wTrigger ∧
          bp.blockingReason = (if wHit.action = "Deny" then "Explicit deny rule"
            else "End of tier default deny") :=
  analyze_pending_reason envTimeout (fun _ => 0) [wLog] none wLog (by decide) wHit wTrigger
    (by decide) rfl (by decide)

/-! ## Claim C4: resolution failures -/

def cex4Trigger : TriggerRef :=
  { kind := "NetworkPolicy", name := "allow-web", namespace_ := "default" }

def cex4Hit : PolicyHit :=
  { kind := "StagedNetworkPolicy", name := "staged-policy", namespace_ := "default"
    tier := "default", action := "Allow", policy_index := 0, rule_index := 0
    trigger := some cex4Trigger }

def cex4Log : RawFlowRecord :=
  { sampleDeny with policies := some { enforced := [], pending := [cex4Hit] } }

/-- Counterexample to C4 as stated: when the policy lookup times out
(resolution failure), the BlockingPolicy entry is kept with null policy
text but with no error message at all — the resolver reports failure by
resolving null rather than by rejecting, so the error-attaching catch
path never runs. -/
theorem analyze_resolution_failure_counterexample :
    retrievePolicyDetails envTimeout cex4Trigger.name cex4Trigger.namespace_
        cex4Trigger.kind = Except.ok none ∧
      resultBlockingLists (analyzeBlockedFlows envTimeout (fun _ => 0) [cex4Log] none) =
        [[{ triggerPolicy := cex4Trigger, policyYaml := none, error := none
            blockingReason := "End of tier default deny" }]] :=
  ⟨rfl, rfl⟩

/-- C4 (amended): a resolution failure (error or timeout, resolved as
null) keeps the BlockingPolicy entry in the result with null policy text
and no error message, and never causes the whole analysis batch to fail:
the analysis still contains one entry per denied record. -/
theorem analyze_resolution_failure (env : KubectlEnv) (parseTime : String → Int)
    (logs : List RawFlowRecord) (ns : Option String) (log : RawFlowRecord)
    (hlog : log ∈ blockedFilter logs ns) (ph : PolicyHit) (t : TriggerRef)
    (hph : ph ∈ pendingOf log) (ht : ph.trigger = some t) (hname : t.name ≠ "")
    (hfail : retrievePolicyDetails env t.name t.namespace_ t.kind = Except.ok none) :
    ∃ a, analyzeBlockedFlows env parseTime logs ns = .analysis a ∧
      a.blockedFlows.length = (blockedFilter logs ns).length ∧
      mkRecordAnalysis env log ∈ a.blockedFlows ∧
      ∃ bp ∈ (mkRecordAnalysis env log).blockingPolicies,
        bp.triggerPolicy = t ∧ bp.policyYaml = none ∧ bp.error = none := by
  have hne : ¬(blockedFilter logs ns).length = 0 := by
    intro h0
    rw [List.length_eq_zero] at h0
    rw [h0] at hlog
    exact absurd hlog (by simp)
  unfold analyzeBlockedFlows
  rw [if_neg hne]
  refine ⟨_, rfl, List.length_map _ _, List.mem_map_of_mem _ hlog,
    mkPendingEntry env ph t, ?_, ?_, ?_, ?_⟩
  · show mkPendingEntry env ph t ∈ blockingPoliciesOf env log
    apply List.mem_append_left
    unfold pendingEntries
    apply List.mem_flatten.mpr
    refine ⟨[mkPendingEntry env ph t], ?_, List.mem_singleton.mpr rfl⟩
    exact List.mem_map.mpr ⟨ph, hph, by simp only [ht]; rw [if_pos hname]⟩
  · exact mkPendingEntry_trigger env ph t
  · exact mkPendingEntry_yaml_none env ph t hfail
  · exact mkPendingEntry_error_none env ph t

/-- Witness for the amended C4 on a concrete timed-out lookup. -/
theorem analyze_resolution_failure_witness :
    ∃ a, analyzeBlockedFlows envTimeout (fun _ => 0) [cex4Log] none = .analysis a ∧
      a.blockedFlows.length = (blockedFilter [cex4Log] none).length ∧
      mkRecordAnalysis envTimeout cex4Log ∈ a.blockedFlows ∧
      ∃ bp ∈ (mkRecordAnalysis envTimeout cex4Log).blockingPolicies,
        bp.triggerPolicy = cex4Trigger ∧ bp.policyYaml = none ∧ bp.error = none :=
  analyze_resolution_failure envTimeout (fun _ => 0) [cex4Log] none cex4Log (by decide)
    cex4Hit cex4Trigger (by decide) rfl (by decide) rfl

/-! ## Policy-draft generation (`log-filter.js`, lines 100-199)

`generateCalicoNetworkPolicies` consumes aggregated logs. The JS `Map`
groupings are embedded as insertion-ordered association lists whose
`set`-or-push update is `upsert`. -/

/-- One element of the output of `aggregateLogsForPolicyGeneration`. -/
structure AggregatedLog where
  source_name : String
  source_namespace : String
  source_labels : Option String
  dest_name : String
  dest_namespace : String
  dest_labels : Option String
  protocol : String
  dest_port : Option Int
  flow_count : Nat
  total_packets : Int
  total_bytes : Int
  actions : List String
  deriving DecidableEq, Repr

/-- The scan of `extractLabelValue` over the bar-separated pairs: first
pair whose trimmed key equals `key` and whose trimmed value is truthy. -/
def findLabel : List String → String → Option String
  | [], _ => none
  | pair :: rest, key =>
    match (jsSplit '=' pair).map jsTrim with
    | k' :: v :: _ => if k' = key ∧ v ≠ "" then some v else findLabel rest key
    | _ => findLabel rest key

/-- `extractLabelValue` (lines 187-199): split on bars, trim, split each
pair on "=", first match wins; a falsy label string yields null. -/
def extractLabelValue (labels : Option String) (key : String) : Option String :=
  if strTruthy labels then
    findLabel ((jsSplit '|' (labels.getD "")).map jsTrim) key
  else none

/-- JS `Map` update used by both groupings: push onto the existing group
or append a new singleton group. -/
def upsert {α : Type} : List (String × List α) → String → α → List (String × List α)
  | [], k, x => [(k, [x])]
  | (k', g) :: rest, k, x =>
    if k' = k then (k', g ++ [x]) :: rest else (k', g) :: upsert rest k x

/-- The body of the `sourceGroups` forEach (lines 104-116). -/
def sourceGroupStep (ns sk : String) (m : List (String × List AggregatedLog))
    (log : AggregatedLog) : List (String × List AggregatedLog) :=
  if log.source_namespace = ns then
    match extractLabelValue log.source_labels sk with
    | some v => if v ≠ "" then upsert m v log else m
    | none => m
  else m

def sourceGroups (aggregatedLogs : List AggregatedLog) (ns sk : String) :
    List (String × List AggregatedLog) :=
  aggregatedLogs.foldl (sourceGroupStep ns sk) []

/-- `` `${flow.dest_namespace}|${flow.protocol}|${flow.dest_port}` ``. -/
def destKeyOf (flow : AggregatedLog) : String :=
  flow.dest_namespace ++ "|" ++ flow.protocol ++ "|" ++ templateOptInt flow.dest_port

def destinationGroups (flows : List AggregatedLog) : List (String × List AggregatedLog) :=
  flows.foldl (fun m flow => upsert m (destKeyOf flow) flow) []

structure PortEntry where
  protocol : String
  port : Option Int
  deriving DecidableEq, Repr

structure RuleDestination where
  namespaceSelector : Option String
  selector : Option (String × String)
  deriving DecidableEq, Repr

structure EgressRule where
  action : String
  destination : RuleDestination
  protocol : String
  ports : Option (List PortEntry)
  deriving DecidableEq, Repr

/-- The per-destination-group rule construction (lines 130-165): the key
is split back on `'|'` and the rule always pushed; the `ports` field is
attached only for a truthy port component that is neither "null" nor
"0". -/
def mkEgressRule (ns sk : String) (destKey : String) (destFlows : List AggregatedLog) :
    EgressRule :=
  let parts := jsSplit '|' destKey
  let destNamespace := parts.getD 0 ""
  let protocol := parts.getD 1 ""
  let destPort := parts.getD 2 ""
  { action := "Allow"
    destination :=
      if destNamespace ≠ ns then
        { namespaceSelector := some destNamespace, selector := none }
      else
        match destFlows.head? with
        | some f =>
          match extractLabelValue f.dest_labels sk with
          | some destSelector =>
            { namespaceSelector := none, selector := some (sk, destSelector) }
          | none => { namespaceSelector := none, selector := none }
        | none => { namespaceSelector := none, selector := none }
    protocol := jsToUpper protocol
    ports :=
      if destPort ≠ "" ∧ destPort ≠ "null" ∧ destPort ≠ "0" then
        some [{ protocol := jsToUpper protocol, port := jsParseInt destPort }]
      else none }

/-- `selectorValue.toLowerCase().replace(/[^a-z0-9]/g, '-')`. -/
def sanitizeChar (c : Char) : Char :=
  if ('a' ≤ c ∧ c ≤ 'z') ∨ ('0' ≤ c ∧ c ≤ '9') then c else '-'

def policyNameOf (selectorValue : String) : String :=
  "allow-" ++ ((jsToLower selectorValue).data.map sanitizeChar).asString ++ "-egress"

structure PolicyOut where
  apiVersion : String
  kind : String
  name : String
  namespace_ : String
  selectorKey : String
  selectorValue : String
  types : List String
  egress : List EgressRule
  deriving DecidableEq, Repr

/-- `generateCalicoNetworkPolicies` (lines 100-186). -/
def generateCalicoNetworkPolicies (aggregatedLogs : List AggregatedLog)
    (ns sk : String) : List PolicyOut :=
  (sourceGroups aggregatedLogs ns sk).map (fun g =>
    { apiVersion := "projectcalico.org/v3"
      kind := "NetworkPolicy"
      name := policyNameOf g.1
      namespace_ := ns
      selectorKey := sk
      selectorValue := g.1
      types := ["Egress"]
      egress := (destinationGroups g.2).map (fun d => mkEgressRule ns sk d.1 d.2) })

/-! ## Group invariants of the two Map groupings -/

/-- Every group of the association list is non-empty and its members
satisfy the key relation. -/
def GroupsInv {α : Type} (Q : String → α → Prop) (m : List (String × List α)) : Prop :=
  ∀ p ∈ m, p.2 ≠ [] ∧ ∀ x ∈ p.2, Q p.1 x

theorem groupsInv_upsert {α : Type} (Q : String → α → Prop) (m : List (String × List α))
    (k : String) (x : α) (hm : GroupsInv Q m) (hx : Q k x) :
    GroupsInv Q (upsert m k x) := by
  induction m with
  | nil =>
    intro p hp
    simp only [upsert, List.mem_singleton] at hp
    subst hp
    exact ⟨by simp, fun y hy => by rw [List.mem_singleton.mp hy]; exact hx⟩
  | cons e rest ih =>
    obtain ⟨k', g⟩ := e
    intro p hp
    by_cases hk : k' = k
    · simp only [upsert, if_pos hk] at hp
      rcases List.mem_cons.mp hp with rfl | hp'
      · refine ⟨by simp, fun y hy => ?_⟩
        rcases List.mem_append.mp hy with hy' | hy'
        · exact (hm (k', g) (List.mem_cons_self _ _)).2 y hy'
        · rw [List.mem_singleton.mp hy', hk]
          exact hx
      · exact hm p (List.mem_cons_of_mem _ hp')
    · simp only [upsert, if_neg hk] at hp
      rcases List.mem_cons.mp hp with rfl | hp'
      · exact hm (k', g) (List.mem_cons_self _ _)
      · exact ih (fun q hq => hm q (List.mem_cons_of_mem _ hq)) p hp'

theorem sourceGroups_fold_inv (ns sk : String) (R : AggregatedLog → Prop)
    (logs : List AggregatedLog) (hR : ∀ x ∈ logs, R x)
    (m : List (String × List AggregatedLog))
    (hm : GroupsInv (fun v x => R x ∧ x.source_namespace = ns ∧
      extractLabelValue x.source_labels sk = some v) m) :
    GroupsInv (fun v x => R x ∧ x.source_namespace = ns ∧
      extractLabelValue x.source_labels sk = some v)
      (logs.foldl (sourceGroupStep ns sk) m) := by
  induction logs generalizing m with
  | nil => exact hm
  | cons log rest ih =>
    rw [List.foldl_cons]
    apply ih (fun x hx => hR x (List.mem_cons_of_mem _ hx))
    unfold sourceGroupStep
    by_cases hns : log.source_namespace = ns
    · rw [if_pos hns]
      cases hex : extractLabelValue log.source_labels sk with
      | none => exact hm
      | some v =>
        dsimp only
        by_cases hv : v ≠ ""
        · rw [if_pos hv]
          exact groupsInv_upsert _ m v log hm
            ⟨hR log (List.mem_cons_self _ _), hns, hex⟩
        · rw [if_neg hv]
          exact hm
    · rw [if_neg hns]
      exact hm

theorem sourceGroups_inv (ns sk : String) (R : AggregatedLog → Prop)
    (logs : List AggregatedLog) (hR : ∀ x ∈ logs, R x) :
    GroupsInv (fun v x => R x ∧ x.source_namespace = ns ∧
      extractLabelValue x.source_labels sk = some v) (sourceGroups logs ns sk) :=
  sourceGroups_fold_inv ns sk R logs hR [] (fun p hp => absurd hp (by simp))

theorem destinationGroups_fold_inv (R : AggregatedLog → Prop)
    (flows : List AggregatedLog) (hR : ∀ x ∈ flows, R x)
    (m : List (String × List AggregatedLog))
    (hm : GroupsInv (fun k x => R x ∧ destKeyOf x = k) m) :
    GroupsInv (fun k x => R x ∧ destKeyOf x = k)
      (flows.foldl (fun m flow => upsert m (destKeyOf flow) flow) m) := by
  induction flows generalizing m with
  | nil => exact hm
  | cons flow rest ih =>
    rw [List.foldl_cons]
    exact ih (fun x hx => hR x (List.mem_cons_of_mem _ hx)) _
      (groupsInv_upsert _ m (destKeyOf flow) flow hm
        ⟨hR flow (List.mem_cons_self _ _), rfl⟩)

theorem destinationGroups_inv (R : AggregatedLog → Prop)
    (flows : List AggregatedLog) (hR : ∀ x ∈ flows, R x) :
    GroupsInv (fun k x => R x ∧ destKeyOf x = k) (destinationGroups flows) :=
  destinationGroups_fold_inv R flows hR [] (fun p hp => absurd hp (by simp))

theorem upsert_ne_nil {α : Type} (m : List (String × List α)) (k : String) (x : α) :
    upsert m k x ≠ [] := by
  cases m with
  | nil => simp [upsert]
  | cons e rest =>
    obtain ⟨k', g⟩ := e
    unfold upsert
    by_cases h : k' = k <;> simp [h]

theorem destinationGroups_ne_nil (flows : List AggregatedLog) (h : flows ≠ []) :
    destinationGroups flows ≠ [] := by
  have aux : ∀ (l : List AggregatedLog) (m : List (String × List AggregatedLog)),
      m ≠ [] → l.foldl (fun m flow => upsert m (destKeyOf flow) flow) m ≠ [] := by
    intro l
    induction l with
    | nil => exact fun m hm => hm
    | cons x xs ih =>
      intro m _
      rw [List.foldl_cons]
      exact ih _ (upsert_ne_nil m (destKeyOf x) x)
  cases flows with
  | nil => exact absurd rfl h
  | cons f rest =>
    unfold destinationGroups
    rw [List.foldl_cons]
    exact aux rest _ (upsert_ne_nil [] (destKeyOf f) f)

/-! ## Recovering the components of a destination key -/

theorem splitOn_bar_three (a b c : List Char) (ha : '|' ∉ a) (hb : '|' ∉ b)
    (hc : '|' ∉ c) :
    (a ++ '|' :: (b ++ '|' :: c)).splitOn '|' = [a, b, c] := by
  show (a ++ '|' :: (b ++ '|' :: c)).splitOnP (fun x => x == '|') = [a, b, c]
  rw [List.splitOnP_first (fun x => x == '|') a
      (fun y hy H => ha ((eq_of_beq H) ▸ hy)) '|' rfl (b ++ '|' :: c),
    List.splitOnP_first (fun x => x == '|') b
      (fun y hy H => hb ((eq_of_beq H) ▸ hy)) '|' rfl c,
    List.splitOnP_eq_single (fun x => x == '|') c
      (fun y hy H => hc ((eq_of_beq H) ▸ hy))]

theorem jsSplit_bar_three (a b c : String) (ha : '|' ∉ a.data) (hb : '|' ∉ b.data)
    (hc : '|' ∉ c.data) :
    jsSplit '|' (a ++ "|" ++ b ++ "|" ++ c) = [a, b, c] := by
  unfold jsSplit
  have hd : (a ++ "|" ++ b ++ "|" ++ c).data = a.data ++ '|' :: (b.data ++ '|' :: c.data) := by
    simp [String.data_append]
  rw [hd, splitOn_bar_three a.data b.data c.data ha hb hc]
  rfl

/-! ## Claim C5: rules for port-0/null sub-groups -/

/-- An aggregated flow towards another namespace with destination port 0. -/
def cex5Log : AggregatedLog :=
  { source_name := "web", source_namespace := "default", source_labels := some "app=web"
    dest_name := "db", dest_namespace := "data", dest_labels := some "app=db"
    protocol := "tcp", dest_port := some 0, flow_count := 1, total_packets := 10
    total_bytes := 100, actions := ["Allow"] }

/-- Counterexample to C5 as stated: for a sub-group whose destination
port is 0 an egress rule IS emitted — the generator only omits the
`ports` field, it still pushes the rule. -/
theorem generate_rule_portless_counterexample :
    cex5Log.dest_port = some 0 ∧
      (generateCalicoNetworkPolicies [cex5Log] "default" "app").map
        (fun pol => pol.egress.length) = [1] :=
  ⟨rfl, rfl⟩

/-- C5 (amended): for inputs whose destination namespaces and protocols
contain no `'|'` delimiter and whose destination ports are all 0 or
null, every generated policy still carries at least one egress rule, and
none of its rules has a `ports` field (the port is included only when
present, non-null and non-zero). -/
theorem generate_rule_portless (logs : List AggregatedLog) (ns sk : String)
    (hbar : ∀ log ∈ logs, '|' ∉ log.dest_namespace.data ∧ '|' ∉ log.protocol.data)
    (hport : ∀ log ∈ logs, log.dest_port = none ∨ log.dest_port = some 0) :
    ∀ pol ∈ generateCalicoNetworkPolicies logs ns sk,
      pol.egress ≠ [] ∧ ∀ rule ∈ pol.egress, rule.ports = none := by
  intro pol hpol
  obtain ⟨⟨v, flows⟩, hg, rfl⟩ := List.mem_map.mp hpol
  have hsrc := sourceGroups_inv ns sk (fun x => x ∈ logs) logs (fun x hx => hx)
  obtain ⟨hflowsne, hmembers⟩ := hsrc (v, flows) hg
  constructor
  · show (destinationGroups flows).map _ ≠ []
    intro hnil
    exact destinationGroups_ne_nil flows hflowsne (List.map_eq_nil_iff.mp hnil)
  · intro rule hrule
    obtain ⟨⟨dk, g⟩, hdg, rfl⟩ := List.mem_map.mp hrule
    have hdinv := destinationGroups_inv (fun x => x ∈ logs) flows
      (fun x hx => (hmembers x hx).1) (dk, g) hdg
    obtain ⟨x₀, hx₀⟩ := List.exists_mem_of_ne_nil _ hdinv.1
    obtain ⟨hx₀logs, hx₀key⟩ := hdinv.2 x₀ hx₀
    have hx₀key' : destKeyOf x₀ = dk := hx₀key
    have hdk : dk = x₀.dest_namespace ++ "|" ++ x₀.protocol ++ "|" ++
        templateOptInt x₀.dest_port := by
      rw [← hx₀key']
      rfl
    have hs : templateOptInt x₀.dest_port = "null" ∨ templateOptInt x₀.dest_port = "0" := by
      rcases hport x₀ hx₀logs with hp | hp <;> rw [hp]
      · exact Or.inl rfl
      · exact Or.inr rfl
    have hnb3 : '|' ∉ (templateOptInt x₀.dest_port).data := by
      rcases hs with h | h <;> rw [h] <;> decide
    have hsp : jsSplit '|' dk =
        [x₀.dest_namespace, x₀.protocol, templateOptInt x₀.dest_port] := by
      rw [hdk]
      exact jsSplit_bar_three _ _ _ (hbar x₀ hx₀logs).1 (hbar x₀ hx₀logs).2 hnb3
    show (mkEgressRule ns sk dk g).ports = none
    unfold mkEgressRule
    rw [hsp]
    rcases hs with h | h <;> rw [h] <;> simp

/-- The rule generated for `cex5Log`. -/
def cex5Rule : EgressRule :=
  { action := "Allow", destination := { namespaceSelector := some "data", selector := none }
    protocol := "TCP", ports := none }

/-- The policy generated for `cex5Log`. -/
def cex5Policy : PolicyOut :=
  { apiVersion := "projectcalico.org/v3", kind := "NetworkPolicy"
    name := "allow-web-egress", namespace_ := "default", selectorKey := "app"
    selectorValue := "web", types := ["Egress"], egress := [cex5Rule] }

/-- Witness for the amended C5: the concrete zero-port draft still emits
its (port-less) rule. -/
theorem generate_rule_portless_witness :
    cex5Policy ∈ generateCalicoNetworkPolicies [cex5Log] "default" "app" ∧
      cex5Policy.egress ≠ [] ∧ cex5Rule ∈ cex5Policy.egress ∧ cex5Rule.ports = none :=
  ⟨by decide,
    (generate_rule_portless [cex5Log] "default" "app" (by decide) (by decide)
      cex5Policy (by decide)).1,
    by decide,
    (generate_rule_portless [cex5Log] "default" "app" (by decide) (by decide)
      cex5Policy (by decide)).2 cex5Rule (by decide)⟩

/-! ## MCP request handlers (`part_000`, lines 448-483 and 644-679)

Only the ordering of parameter validation against the flow-record fetch
is relevant: a handler either returns a caller-input error before any
fetch or proceeds to `getFlowLogs`. -/

inductive HandlerPlan where
  | callerError (msg : String)
  | fetchThenRespond
  deriving DecidableEq, Repr

/-- `handleGenerateNetworkPolicies` (lines 448-483): only `selectorKey`
is validated before the fetch; `namespace` is not checked by the
handler. -/
def handleGenerateNetworkPolicies (ns sk : Option String) : HandlerPlan :=
  if !(strTruthy sk) then
    .callerError "Error: selectorKey is required. Please provide a label key to use for workload grouping (e.g., \"app\", \"service\", \"component\")."
  else .fetchThenRespond

/-- `handleGetNamespaceFlowSummary` (lines 644-679): `namespace` is
validated before the fetch. -/
def handleGetNamespaceFlowSummary (ns : Option String) : HandlerPlan :=
  if !(strTruthy ns) then
    .callerError "Error: namespace parameter is required"
  else .fetchThenRespond

/-! ## Claim C6: validation before fetch -/

/-- Counterexample to C6 as stated: with the namespace missing but a
selector key supplied, the policy-generation handler proceeds straight
to the flow-record fetch instead of reporting a caller-input error. -/
theorem handler_validation_counterexample :
    handleGenerateNetworkPolicies none (some "app") = HandlerPlan.fetchThenRespond :=
  rfl

/-- C6 (amended): a missing namespace for the summary and a missing
selector key for policy generation are reported as caller-input errors
before any flow-record fetch; the policy-generation handler performs no
namespace validation of its own, so it fetches whenever the selector key
is truthy. -/
theorem handler_validation (ns sk : Option String) :
    (strTruthy ns = false → handleGetNamespaceFlowSummary ns =
      .callerError "Error: namespace parameter is required") ∧
    (strTruthy sk = false → handleGenerateNetworkPolicies ns sk =
      .callerError "Error: selectorKey is required. Please provide a label key to use for workload grouping (e.g., \"app\", \"service\", \"component\").") ∧
    (handleGetNamespaceFlowSummary ns = .fetchThenRespond ↔ strTruthy ns = true) ∧
    (handleGenerateNetworkPolicies ns sk = .fetchThenRespond ↔ strTruthy sk = true) := by
  refine ⟨?_, ?_, ?_, ?_⟩
  · intro h
    unfold handleGetNamespaceFlowSummary
    rw [h]
    rfl
  · intro h
    unfold handleGenerateNetworkPolicies
    rw [h]
    rfl
  · unfold handleGetNamespaceFlowSummary
    cases h : strTruthy ns <;> simp
  · unfold handleGenerateNetworkPolicies
    cases h : strTruthy sk <;> simp

/-- Witness for the amended C6 on concrete missing parameters. -/
theorem handler_validation_witness :
    handleGetNamespaceFlowSummary none =
        HandlerPlan.callerError "Error: namespace parameter is required" ∧
      handleGenerateNetworkPolicies (some "default") none =
        HandlerPlan.callerError "Error: selectorKey is required. Please provide a label key to use for workload grouping (e.g., \"app\", \"service\", \"component\")." :=
  ⟨(handler_validation none none).1 rfl, (handler_validation (some "default") none).2.1 rfl⟩

end McpWhisker
